import Mathlib

/-!
Verification of the dLib TDF timeline engine (tdfTools.py / tdfTimeFunctions.py).

This file gives a shallow embedding of the parts of the code reached by the
checked claims: the sliding-window derived-value functions (CDeltaValue,
CRangeValue, CTimeSeries), the forward/reverse timeline compilation passes
for the creatinine/baseline/AKI variable family, the CKD/MELD milestone
sweep, the timeline query function GetNamedValueFromTimeline, the filter
predicate CheckIfCurrentTimeMeetsCriteria, and the byte-partition scanner
FindAllTimelinesInPartition.

Modeling conventions:
  * Python floats are modeled as rationals (ℚ); day numbers as integers (ℤ).
  * The sentinel TDF_INVALID_VALUE = -314159 and the validity threshold
    TDF_SMALLEST_VALID_VALUE = -1000 are kept as rational constants.
  * A Python dict snapshot is modeled as a function String → Option ℚ
    (none = key absent); a KeyError caught by try/except becomes none.
  * Uncaught Python exceptions are modeled with Except String; the error
    string names the exception class.
-/

namespace DLib

/-- tdfTools.py line 347: `TDF_INVALID_VALUE = -314159`. -/
def TDF_INVALID_VALUE : ℚ := -314159

/-- tdfTools.py line 354: `TDF_SMALLEST_VALID_VALUE = -1000`. -/
def TDF_SMALLEST_VALID_VALUE : ℚ := -1000

/-! ### tdfTimeFunctions.py: queue entries

Every windowed function keeps a deque of dicts `{'v': value, 'd': dayNum,
'm': timeMin}` (oldest first). -/

/-- One queue entry `{'v': value, 'd': dayNum, 'm': timeMin}`. -/
structure TFEntry where
  v : ℚ
  d : ℤ
  m : ℤ
deriving DecidableEq, Repr

/-- The pruning loop shared by the windowed functions
(e.g. tdfTimeFunctions.py lines 493-499): pop entries from the front while
`dayNum - entry['d'] > MaxDaysInQueue`, stopping at the first young-enough
entry. -/
def pruneQueue (maxDays dayNum : ℤ) : List TFEntry → List TFEntry
  | [] => []
  | e :: rest =>
      if dayNum - e.d > maxDays then pruneQueue maxDays dayNum rest
      else e :: rest

/-! ### CDeltaValue (tdfTimeFunctions.py lines 461-533) -/

/-- State of a CDeltaValue instance: the window size `MaxDaysInQueue`
(set by the constructor) and the deque `ValueQueue`. -/
structure CDeltaValue where
  MaxDaysInQueue : ℤ
  ValueQueue : List TFEntry
deriving DecidableEq, Repr

/-- `CDeltaValue.Reset` / a freshly constructed instance: empty queue. -/
def CDeltaValue.init (numDays : ℤ) : CDeltaValue := ⟨numDays, []⟩

/-- `CDeltaValue.ComputeNewValue(value, dayNum, timeMin)` (lines 489-531):
prune old entries, append the new observation, return invalid with ≤ 1
entries or when the oldest retained entry is less than 1 day old, else
newest value minus oldest retained value.  Returns (result, new state). -/
def CDeltaValue.ComputeNewValue (s : CDeltaValue) (value : ℚ) (dayNum timeMin : ℤ) :
    ℚ × CDeltaValue :=
  let q1 := pruneQueue s.MaxDaysInQueue dayNum s.ValueQueue
  let q2 := q1 ++ [⟨value, dayNum, timeMin⟩]
  let s' : CDeltaValue := ⟨s.MaxDaysInQueue, q2⟩
  match q2 with
  | [] => (TDF_INVALID_VALUE, s')          -- unreachable: q2 ends with the new entry
  | oldestEntry :: rest =>
      if rest.length = 0 then (TDF_INVALID_VALUE, s')   -- len(queue) <= 1
      else if dayNum - oldestEntry.d < 1 then (TDF_INVALID_VALUE, s')
      else (value - oldestEntry.v, s')

/-! ### CRangeValue (tdfTimeFunctions.py lines 964-1077) -/

/-- State of a CRangeValue instance. -/
structure CRangeValue where
  fAbsolute : Bool
  MaxDaysInQueue : ℤ
  ValueQueue : List TFEntry
  MaxValue : ℚ
  MinValue : ℚ
deriving DecidableEq, Repr

/-- `CRangeValue.__init__` / `Reset`: empty queue, min and max invalid. -/
def CRangeValue.init (fAbsolute : Bool) (numDays : ℤ) : CRangeValue :=
  ⟨fAbsolute, numDays, [], TDF_INVALID_VALUE, TDF_INVALID_VALUE⟩

/-- The CRangeValue pruning loop (lines 1004-1015): pop old entries from the
front; whenever the popped value equals the tracked min or max, both trackers
are reset to invalid.  Returns (remaining queue, min tracker, max tracker). -/
def rangePrune (maxDays dayNum : ℤ) :
    List TFEntry → ℚ → ℚ → List TFEntry × ℚ × ℚ
  | [], mn, mx => ([], mn, mx)
  | e :: rest, mn, mx =>
      if dayNum - e.d > maxDays then
        if mn = e.v ∨ mx = e.v then
          rangePrune maxDays dayNum rest TDF_INVALID_VALUE TDF_INVALID_VALUE
        else
          rangePrune maxDays dayNum rest mn mx
      else (e :: rest, mn, mx)

/-- One step of the min/max recomputation loop (lines 1027-1035). -/
def recomputeStep (mm : ℚ × ℚ) (e : TFEntry) : ℚ × ℚ :=
  (if mm.1 = TDF_INVALID_VALUE ∨ e.v ≤ mm.1 then e.v else mm.1,
   if mm.2 = TDF_INVALID_VALUE ∨ e.v ≥ mm.2 then e.v else mm.2)

/-- The full min/max rescan (lines 1023-1035): reset both trackers to
invalid, then scan the whole queue. -/
def recomputeMinMax (q : List TFEntry) : ℚ × ℚ :=
  q.foldl recomputeStep (TDF_INVALID_VALUE, TDF_INVALID_VALUE)

/-- Tracker update after appending the new entry (lines 1023-1050): if
either tracker was reset, rescan the whole queue (which already contains the
new entry); otherwise update both trackers incrementally against the new
value only.  `t` is the (min, max) tracker pair left by the pruning loop. -/
def rangeNewMinMax (t : ℚ × ℚ) (value : ℚ) (q2 : List TFEntry) : ℚ × ℚ :=
  if t.2 = TDF_INVALID_VALUE ∨ t.1 = TDF_INVALID_VALUE then
    recomputeMinMax q2
  else
    (if t.1 = TDF_INVALID_VALUE ∨ value ≤ t.1 then value else t.1,
     if t.2 = TDF_INVALID_VALUE ∨ value ≥ t.2 then value else t.2)

/-- The result computation (lines 1052-1074): invalid when a tracker is
invalid or at most one entry is retained; otherwise max − min, divided by
the min only under the guard `MinValue != 0` (making the `result = 0`
branch at line 1065 dead code). -/
def rangeResult (fAbs : Bool) (mm : ℚ × ℚ) (len : ℕ) : ℚ :=
  if mm.1 = TDF_INVALID_VALUE ∨ mm.2 = TDF_INVALID_VALUE ∨ len ≤ 1 then
    TDF_INVALID_VALUE
  else
    let result := mm.2 - mm.1
    if (¬ fAbs) ∧ mm.1 ≠ 0 then
      (if mm.1 = 0 then 0 else result / mm.1)
    else result

/-- `CRangeValue.ComputeNewValue(value, dayNum, timeMin)` (lines 999-1075):
prune (resetting the trackers when a tracked extremum is evicted), append
the new observation, update the trackers, and compute the result. -/
def CRangeValue.ComputeNewValue (s : CRangeValue) (value : ℚ) (dayNum timeMin : ℤ) :
    ℚ × CRangeValue :=
  let pr := rangePrune s.MaxDaysInQueue dayNum s.ValueQueue s.MinValue s.MaxValue
  let q2 := pr.1 ++ [⟨value, dayNum, timeMin⟩]
  let mm := rangeNewMinMax pr.2 value q2
  (rangeResult s.fAbsolute mm q2.length,
   ⟨s.fAbsolute, s.MaxDaysInQueue, q2, mm.2, mm.1⟩)

/-! ### List min/max helpers (spec side) -/

/-- Minimum of a list of rationals; the invalid sentinel for an empty list. -/
def listMinQ : List ℚ → ℚ
  | [] => TDF_INVALID_VALUE
  | v :: vs => vs.foldl min v

/-- Maximum of a list of rationals; the invalid sentinel for an empty list. -/
def listMaxQ : List ℚ → ℚ
  | [] => TDF_INVALID_VALUE
  | v :: vs => vs.foldl max v

theorem foldl_min_eq (t : List ℚ) (a : ℚ) :
    t.foldl min a = if t = [] then a else min a (listMinQ t) := by
  induction t generalizing a with
  | nil => simp
  | cons b t' ih =>
      simp only [List.foldl_cons, ih, listMinQ]
      rcases eq_or_ne t' [] with h | h
      · simp [h]
      · simp only [h, if_false, List.cons_ne_nil, min_assoc]

theorem foldl_max_eq (t : List ℚ) (a : ℚ) :
    t.foldl max a = if t = [] then a else max a (listMaxQ t) := by
  induction t generalizing a with
  | nil => simp
  | cons b t' ih =>
      simp only [List.foldl_cons, ih, listMaxQ]
      rcases eq_or_ne t' [] with h | h
      · simp [h]
      · simp only [h, if_false, List.cons_ne_nil, max_assoc]

theorem listMinQ_cons (a : ℚ) (l : List ℚ) (h : l ≠ []) :
    listMinQ (a :: l) = min a (listMinQ l) := by
  rw [show listMinQ (a :: l) = l.foldl min a from rfl, foldl_min_eq]
  simp [h]

theorem listMaxQ_cons (a : ℚ) (l : List ℚ) (h : l ≠ []) :
    listMaxQ (a :: l) = max a (listMaxQ l) := by
  rw [show listMaxQ (a :: l) = l.foldl max a from rfl, foldl_max_eq]
  simp [h]

theorem listMinQ_mem (l : List ℚ) (h : l ≠ []) : listMinQ l ∈ l := by
  induction l with
  | nil => simp at h
  | cons a t ih =>
      rcases eq_or_ne t [] with ht | ht
      · simp [ht, listMinQ]
      · rw [listMinQ_cons a t ht]
        rcases min_cases a (listMinQ t) with ⟨hmin, _⟩ | ⟨hmin, _⟩
        · rw [hmin]; exact List.mem_cons_self a t
        · rw [hmin]; exact List.mem_cons_of_mem a (ih ht)

theorem listMaxQ_mem (l : List ℚ) (h : l ≠ []) : listMaxQ l ∈ l := by
  induction l with
  | nil => simp at h
  | cons a t ih =>
      rcases eq_or_ne t [] with ht | ht
      · simp [ht, listMaxQ]
      · rw [listMaxQ_cons a t ht]
        rcases max_cases a (listMaxQ t) with ⟨hmax, _⟩ | ⟨hmax, _⟩
        · rw [hmax]; exact List.mem_cons_self a t
        · rw [hmax]; exact List.mem_cons_of_mem a (ih ht)

theorem listMinQ_le (l : List ℚ) (x : ℚ) (hx : x ∈ l) : listMinQ l ≤ x := by
  induction l with
  | nil => simp at hx
  | cons a t ih =>
      rcases eq_or_ne t [] with ht | ht
      · subst ht; simp at hx; simp [hx, listMinQ]
      · rw [listMinQ_cons a t ht]
        rcases List.mem_cons.mp hx with rfl | hxt
        · exact min_le_left _ _
        · exact le_trans (min_le_right _ _) (ih hxt)

theorem le_listMaxQ (l : List ℚ) (x : ℚ) (hx : x ∈ l) : x ≤ listMaxQ l := by
  induction l with
  | nil => simp at hx
  | cons a t ih =>
      rcases eq_or_ne t [] with ht | ht
      · subst ht; simp at hx; simp [hx, listMaxQ]
      · rw [listMaxQ_cons a t ht]
        rcases List.mem_cons.mp hx with rfl | hxt
        · exact le_max_left _ _
        · exact le_trans (ih hxt) (le_max_right _ _)

theorem listMinQ_concat (l : List ℚ) (x : ℚ) (h : l ≠ []) :
    listMinQ (l ++ [x]) = min (listMinQ l) x := by
  rcases l with _ | ⟨a, t⟩
  · simp at h
  · show (t ++ [x]).foldl min a = min (t.foldl min a) x
    rw [List.foldl_append]
    rfl

theorem listMaxQ_concat (l : List ℚ) (x : ℚ) (h : l ≠ []) :
    listMaxQ (l ++ [x]) = max (listMaxQ l) x := by
  rcases l with _ | ⟨a, t⟩
  · simp at h
  · show (t ++ [x]).foldl max a = max (t.foldl max a) x
    rw [List.foldl_append]
    rfl

/-- Popping the head leaves the minimum unchanged when the head is not the
minimum. -/
theorem listMinQ_tail (a : ℚ) (t : List ℚ) (ht : t ≠ [])
    (hne : listMinQ (a :: t) ≠ a) : listMinQ t = listMinQ (a :: t) := by
  rw [listMinQ_cons a t ht] at hne ⊢
  rcases min_cases a (listMinQ t) with ⟨hmin, _⟩ | ⟨hmin, _⟩
  · exact absurd hmin hne
  · exact hmin.symm

theorem listMaxQ_tail (a : ℚ) (t : List ℚ) (ht : t ≠ [])
    (hne : listMaxQ (a :: t) ≠ a) : listMaxQ t = listMaxQ (a :: t) := by
  rw [listMaxQ_cons a t ht] at hne ⊢
  rcases max_cases a (listMaxQ t) with ⟨hmax, _⟩ | ⟨hmax, _⟩
  · exact absurd hmax hne
  · exact hmax.symm

/-! ### Claim C5: full eviction behaves like a fresh instance -/

theorem pruneQueue_eq_nil (maxD d : ℤ) (q : List TFEntry)
    (h : ∀ e ∈ q, d - e.d > maxD) : pruneQueue maxD d q = [] := by
  induction q with
  | nil => rfl
  | cons e rest ih =>
      rw [pruneQueue, if_pos (h e (List.mem_cons_self e rest))]
      exact ih fun e' he' => h e' (List.mem_cons_of_mem e he')

theorem rangePrune_fst_eq_nil (maxD d : ℤ) (q : List TFEntry) (mn mx : ℚ)
    (h : ∀ e ∈ q, d - e.d > maxD) : (rangePrune maxD d q mn mx).1 = [] := by
  induction q generalizing mn mx with
  | nil => rfl
  | cons e rest ih =>
      rw [rangePrune, if_pos (h e (List.mem_cons_self e rest))]
      have hrest : ∀ e' ∈ rest, d - e'.d > maxD :=
        fun e' he' => h e' (List.mem_cons_of_mem e he')
      by_cases hc : mn = e.v ∨ mx = e.v
      · rw [if_pos hc]; exact ih _ _ hrest
      · rw [if_neg hc]; exact ih _ _ hrest

/-- After full eviction, CDeltaValue returns the invalid value (only the new
observation is retained, and a single entry cannot have a delta). -/
theorem cdelta_all_old_invalid (s : CDeltaValue) (v : ℚ) (d m : ℤ)
    (h : ∀ e ∈ s.ValueQueue, d - e.d > s.MaxDaysInQueue) :
    (s.ComputeNewValue v d m).1 = TDF_INVALID_VALUE := by
  unfold CDeltaValue.ComputeNewValue
  rw [pruneQueue_eq_nil _ _ _ h]
  rfl

/-- After full eviction, CRangeValue returns the invalid value (only the new
observation is retained, and the `len(queue) <= 1` test fires). -/
theorem crange_all_old_invalid (s : CRangeValue) (v : ℚ) (d m : ℤ)
    (h : ∀ e ∈ s.ValueQueue, d - e.d > s.MaxDaysInQueue) :
    (s.ComputeNewValue v d m).1 = TDF_INVALID_VALUE := by
  have h1 := rangePrune_fst_eq_nil s.MaxDaysInQueue d s.ValueQueue s.MinValue s.MaxValue h
  simp [CRangeValue.ComputeNewValue, rangeResult, h1]

/-- C5: for a sliding-window function fed observations in increasing day
order, a new observation strictly more than `MaxDaysInQueue` days after every
retained observation evicts all prior observations before computing, so the
output of that call equals the output of a freshly reset instance fed only
the newest observation.  Proved for the two functions the claim cites,
CDeltaValue and CRangeValue (both outputs are then the invalid value, since a
single retained observation is not enough for a delta or a range). -/
theorem C5_window_eviction_reset (sd : CDeltaValue) (sr : CRangeValue)
    (v : ℚ) (d m : ℤ)
    (hd : ∀ e ∈ sd.ValueQueue, d - e.d > sd.MaxDaysInQueue)
    (hr : ∀ e ∈ sr.ValueQueue, d - e.d > sr.MaxDaysInQueue) :
    (sd.ComputeNewValue v d m).1 =
      ((CDeltaValue.init sd.MaxDaysInQueue).ComputeNewValue v d m).1 ∧
    (sr.ComputeNewValue v d m).1 =
      ((CRangeValue.init sr.fAbsolute sr.MaxDaysInQueue).ComputeNewValue v d m).1 := by
  constructor
  · rw [cdelta_all_old_invalid sd v d m hd,
      cdelta_all_old_invalid (CDeltaValue.init sd.MaxDaysInQueue) v d m (by simp [CDeltaValue.init])]
  · rw [crange_all_old_invalid sr v d m hr,
      crange_all_old_invalid (CRangeValue.init sr.fAbsolute sr.MaxDaysInQueue) v d m
        (by simp [CRangeValue.init])]

/-- Witness for C5 at a concrete state: window 7 days, one retained
observation at day 0, new observation at day 100. -/
theorem C5_window_eviction_reset_witness :
    (∀ e ∈ (⟨7, [⟨1, 0, 0⟩]⟩ : CDeltaValue).ValueQueue,
        (100 : ℤ) - e.d > (⟨7, [⟨1, 0, 0⟩]⟩ : CDeltaValue).MaxDaysInQueue) ∧
    (∀ e ∈ (⟨false, 7, [⟨1, 0, 0⟩], 1, 1⟩ : CRangeValue).ValueQueue,
        (100 : ℤ) - e.d > (⟨false, 7, [⟨1, 0, 0⟩], 1, 1⟩ : CRangeValue).MaxDaysInQueue) ∧
    ((⟨7, [⟨1, 0, 0⟩]⟩ : CDeltaValue).ComputeNewValue 5 100 0).1 =
      ((CDeltaValue.init 7).ComputeNewValue 5 100 0).1 ∧
    ((⟨false, 7, [⟨1, 0, 0⟩], 1, 1⟩ : CRangeValue).ComputeNewValue 5 100 0).1 =
      ((CRangeValue.init false 7).ComputeNewValue 5 100 0).1 :=
  ⟨by decide, by decide,
    C5_window_eviction_reset ⟨7, [⟨1, 0, 0⟩]⟩ ⟨false, 7, [⟨1, 0, 0⟩], 1, 1⟩ 5 100 0
      (by decide) (by decide)⟩

/-! ### Claim C7: the relative Range function -/

/-- Feed a list of (value, day) observations into a CRangeValue instance,
returning the final state (the per-subject traversal of one variable). -/
def feedRangeState (s : CRangeValue) : List (ℚ × ℤ) → CRangeValue
  | [] => s
  | (v, d) :: rest => feedRangeState (s.ComputeNewValue v d 0).2 rest

/-- Feed a list of observations and return the output of the last
`ComputeNewValue` call (invalid for an empty list). -/
def feedRangeOut (s : CRangeValue) : List (ℚ × ℤ) → ℚ
  | [] => TDF_INVALID_VALUE
  | [(v, d)] => (s.ComputeNewValue v d 0).1
  | (v, d) :: rest => feedRangeOut (s.ComputeNewValue v d 0).2 rest

/-- Day of the last observation (0 for an empty list). -/
def lastDay (obs : List (ℚ × ℤ)) : ℤ :=
  match obs.getLast? with
  | some p => p.2
  | none => 0

/-- The pruned window: the observations within `N` days of the last day.
For observations fed in nondecreasing day order the retained queue is
exactly this suffix. -/
def windowOf (N lastD : ℤ) (obs : List (ℚ × ℤ)) : List (ℚ × ℤ) :=
  obs.dropWhile (fun p => decide (lastD - p.2 > N))

/-- The relative Range result exactly as claim C7 states it: (max − min) of
the pruned window divided by the window minimum, 0 when the window minimum
is 0, invalid when at most one observation is retained. -/
def relRangeAsClaimed (w : List ℚ) : ℚ :=
  if w.length ≤ 1 then TDF_INVALID_VALUE
  else if listMinQ w = 0 then 0
  else (listMaxQ w - listMinQ w) / listMinQ w

/-- The relative Range result as the code actually computes it: identical to
the claim except that when the window minimum is 0 the division is skipped
and the raw (max − min) is returned, because the `result = 0` branch at
tdfTimeFunctions.py line 1065 sits under the guard `MinValue != 0` (line
1063) and is dead code. -/
def relRangeAmended (w : List ℚ) : ℚ :=
  if w.length ≤ 1 then TDF_INVALID_VALUE
  else if listMinQ w = 0 then listMaxQ w - listMinQ w
  else (listMaxQ w - listMinQ w) / listMinQ w

/-- C7 counterexample: relrange with window 7 days fed 0 on day 0 and 2 on
day 1 retains both observations; the window minimum is 0, the claim says
the result must then be 0, but the code returns max − min = 2. -/
theorem C7_relrange_counterexample :
    feedRangeOut (CRangeValue.init false 7) [(0, 0), (2, 1)] = 2 ∧
    relRangeAsClaimed
      ((windowOf 7 (lastDay [(0, 0), (2, 1)]) [(0, 0), (2, 1)]).map Prod.fst) = 0 ∧
    feedRangeOut (CRangeValue.init false 7) [(0, 0), (2, 1)] ≠
      relRangeAsClaimed
        ((windowOf 7 (lastDay [(0, 0), (2, 1)]) [(0, 0), (2, 1)]).map Prod.fst) := by
  have h1 : feedRangeOut (CRangeValue.init false 7) [(0, 0), (2, 1)] = 2 := by
    norm_num [feedRangeOut, CRangeValue.ComputeNewValue, CRangeValue.init, rangePrune,
      rangeNewMinMax, rangeResult, recomputeMinMax, recomputeStep, TDF_INVALID_VALUE]
  have h2 : relRangeAsClaimed
      ((windowOf 7 (lastDay [(0, 0), (2, 1)]) [(0, 0), (2, 1)]).map Prod.fst) = 0 := by
    norm_num [relRangeAsClaimed, windowOf, lastDay, listMinQ, listMaxQ, TDF_INVALID_VALUE]
  refine ⟨h1, h2, ?_⟩
  rw [h1, h2]
  norm_num

/-! #### Window invariant machinery for the amended C7 -/

theorem rangePrune_fst (maxD d : ℤ) (q : List TFEntry) (mn mx : ℚ) :
    (rangePrune maxD d q mn mx).1 =
      q.dropWhile (fun e => decide (d - e.d > maxD)) := by
  induction q generalizing mn mx with
  | nil => rfl
  | cons e rest ih =>
      rw [rangePrune, List.dropWhile_cons]
      by_cases hold : d - e.d > maxD
      · rw [if_pos hold, if_pos (decide_eq_true hold)]
        by_cases hc : mn = e.v ∨ mx = e.v
        · rw [if_pos hc, ih]
        · rw [if_neg hc, ih]
      · rw [if_neg hold, if_neg (by simpa using hold)]

theorem invalid_ne_valid (x : ℚ) (hx : x > TDF_SMALLEST_VALID_VALUE) :
    TDF_INVALID_VALUE ≠ x := by
  intro h
  rw [← h] at hx
  norm_num [TDF_INVALID_VALUE, TDF_SMALLEST_VALID_VALUE] at hx

theorem rangePrune_inv_inv (maxD d : ℤ) (q : List TFEntry)
    (hv : ∀ e ∈ q, e.v > TDF_SMALLEST_VALID_VALUE) :
    rangePrune maxD d q TDF_INVALID_VALUE TDF_INVALID_VALUE =
      (q.dropWhile (fun e => decide (d - e.d > maxD)),
       TDF_INVALID_VALUE, TDF_INVALID_VALUE) := by
  induction q with
  | nil => rfl
  | cons e rest ih =>
      rw [rangePrune, List.dropWhile_cons]
      by_cases hold : d - e.d > maxD
      · have hne : ¬(TDF_INVALID_VALUE = e.v ∨ TDF_INVALID_VALUE = e.v) := by
          have := invalid_ne_valid e.v (hv e (List.mem_cons_self e rest))
          tauto
        rw [if_pos hold, if_neg hne, if_pos (decide_eq_true hold)]
        exact ih fun e' he' => hv e' (List.mem_cons_of_mem e he')
      · rw [if_neg hold, if_neg (by simpa using hold)]

theorem rangePrune_trackers (maxD d : ℤ) (q : List TFEntry) (mn mx : ℚ)
    (hv : ∀ e ∈ q, e.v > TDF_SMALLEST_VALID_VALUE) (hq : q ≠ [])
    (hmn : mn = listMinQ (q.map TFEntry.v)) (hmx : mx = listMaxQ (q.map TFEntry.v)) :
    (rangePrune maxD d q mn mx).2 = (TDF_INVALID_VALUE, TDF_INVALID_VALUE) ∨
    ((rangePrune maxD d q mn mx).1 ≠ [] ∧
     (rangePrune maxD d q mn mx).2.1 =
        listMinQ ((rangePrune maxD d q mn mx).1.map TFEntry.v) ∧
     (rangePrune maxD d q mn mx).2.2 =
        listMaxQ ((rangePrune maxD d q mn mx).1.map TFEntry.v)) := by
  induction q generalizing mn mx with
  | nil => exact absurd rfl hq
  | cons e rest ih =>
      rw [rangePrune]
      by_cases hold : d - e.d > maxD
      · rw [if_pos hold]
        by_cases hc : mn = e.v ∨ mx = e.v
        · rw [if_pos hc]
          left
          rw [rangePrune_inv_inv maxD d rest
            (fun e' he' => hv e' (List.mem_cons_of_mem e he'))]
        · rw [if_neg hc]
          push_neg at hc
          have hrest : rest ≠ [] := by
            intro hrnil
            subst hrnil
            exact hc.1 (by simp [listMinQ] at hmn; exact hmn)
          have hvalsrest : rest.map TFEntry.v ≠ [] := by
            simpa using hrest
          have hmapcons : (e :: rest).map TFEntry.v = e.v :: rest.map TFEntry.v := rfl
          refine ih mn mx (fun e' he' => hv e' (List.mem_cons_of_mem e he')) hrest ?_ ?_
          · rw [hmn, hmapcons]
            exact (listMinQ_tail e.v (rest.map TFEntry.v) hvalsrest
              (by rw [hmapcons] at hmn; rw [← hmn]; exact fun h => hc.1 h)).symm
          · rw [hmx, hmapcons]
            exact (listMaxQ_tail e.v (rest.map TFEntry.v) hvalsrest
              (by rw [hmapcons] at hmx; rw [← hmx]; exact fun h => hc.2 h)).symm
      · rw [if_neg hold]
        right
        exact ⟨by simp, hmn, hmx⟩

theorem valid_ne_invalid (x : ℚ) (hx : x > TDF_SMALLEST_VALID_VALUE) :
    x ≠ TDF_INVALID_VALUE := fun h => invalid_ne_valid x hx h.symm

theorem listMinQ_valid (l : List ℚ) (hl : l ≠ [])
    (hv : ∀ x ∈ l, x > TDF_SMALLEST_VALID_VALUE) :
    listMinQ l > TDF_SMALLEST_VALID_VALUE :=
  hv _ (listMinQ_mem l hl)

theorem listMaxQ_valid (l : List ℚ) (hl : l ≠ [])
    (hv : ∀ x ∈ l, x > TDF_SMALLEST_VALID_VALUE) :
    listMaxQ l > TDF_SMALLEST_VALID_VALUE :=
  hv _ (listMaxQ_mem l hl)

theorem if_le_eq_min (a x : ℚ) : (if x ≤ a then x else a) = min a x := by
  rcases le_total x a with h | h
  · rw [if_pos h, min_eq_right h]
  · by_cases h2 : x ≤ a
    · rw [if_pos h2, min_eq_right h2]
    · rw [if_neg h2, min_eq_left h]

theorem if_ge_eq_max (b x : ℚ) : (if x ≥ b then x else b) = max b x := by
  rcases le_total b x with h | h
  · rw [if_pos h, max_eq_right h]
  · by_cases h2 : x ≥ b
    · rw [if_pos h2, max_eq_right h2]
    · rw [if_neg h2, max_eq_left h]

theorem recomputeStep_valid (a b : ℚ) (e : TFEntry)
    (ha : a > TDF_SMALLEST_VALID_VALUE) (_hb : b > TDF_SMALLEST_VALID_VALUE)
    (hb' : b ≠ TDF_INVALID_VALUE) :
    recomputeStep (a, b) e = (min a e.v, max b e.v) := by
  unfold recomputeStep
  have ha' : a ≠ TDF_INVALID_VALUE := valid_ne_invalid a ha
  simp only [ha', hb', false_or]
  rw [if_le_eq_min, if_ge_eq_max]

theorem foldl_recompute (q : List TFEntry)
    (hv : ∀ e ∈ q, e.v > TDF_SMALLEST_VALID_VALUE) :
    ∀ a b : ℚ, a > TDF_SMALLEST_VALID_VALUE → b > TDF_SMALLEST_VALID_VALUE →
    q.foldl recomputeStep (a, b) =
      ((q.map TFEntry.v).foldl min a, (q.map TFEntry.v).foldl max b) := by
  induction q with
  | nil => intro a b _ _; rfl
  | cons e rest ih =>
      intro a b ha hb
      have he := hv e (List.mem_cons_self e rest)
      rw [List.foldl_cons,
        recomputeStep_valid a b e ha hb (valid_ne_invalid b hb),
        ih (fun e' he' => hv e' (List.mem_cons_of_mem e he'))
          (min a e.v) (max b e.v) (lt_min ha he) (lt_max_iff.mpr (Or.inl hb))]
      rfl

theorem recomputeMinMax_spec (q : List TFEntry)
    (hv : ∀ e ∈ q, e.v > TDF_SMALLEST_VALID_VALUE) (hq : q ≠ []) :
    recomputeMinMax q = (listMinQ (q.map TFEntry.v), listMaxQ (q.map TFEntry.v)) := by
  rcases q with _ | ⟨e, rest⟩
  · exact absurd rfl hq
  · have he := hv e (List.mem_cons_self e rest)
    have hstep : recomputeStep (TDF_INVALID_VALUE, TDF_INVALID_VALUE) e = (e.v, e.v) := by
      simp [recomputeStep]
    rw [recomputeMinMax, List.foldl_cons, hstep,
      foldl_recompute rest (fun e' he' => hv e' (List.mem_cons_of_mem e he')) e.v e.v he he]
    rfl

/-- Entry built from one (value, day) observation: all observations enter
`ComputeNewValue` with `timeMin = 0` in this development. -/
def obsEntry (p : ℚ × ℤ) : TFEntry := ⟨p.1, p.2, 0⟩

/-- The state of a relative-range instance whose retained window is `w`:
queue holds exactly the window, min/max trackers hold the window min/max. -/
def mkRangeState (N : ℤ) (w : List (ℚ × ℤ)) : CRangeValue :=
  ⟨false, N, w.map obsEntry, listMaxQ (w.map Prod.fst), listMinQ (w.map Prod.fst)⟩

theorem dropWhile_map {α β : Type} (p : β → Bool) (f : α → β) (l : List α) :
    (l.map f).dropWhile p = (l.dropWhile (p ∘ f)).map f := by
  induction l with
  | nil => rfl
  | cons a t ih =>
      rw [List.map_cons, List.dropWhile_cons, List.dropWhile_cons]
      simp only [Function.comp_apply]
      by_cases h : p (f a)
      · rw [if_pos h, if_pos h, ih]
      · rw [if_neg h, if_neg h, List.map_cons]

theorem dropWhile_dropWhile {α : Type} (p₁ p₂ : α → Bool) (l : List α)
    (h : ∀ a ∈ l, p₁ a = true → p₂ a = true) :
    (l.dropWhile p₁).dropWhile p₂ = l.dropWhile p₂ := by
  induction l with
  | nil => rfl
  | cons a t ih =>
      rw [List.dropWhile_cons]
      by_cases h1 : p₁ a
      · rw [if_pos h1, List.dropWhile_cons,
          if_pos (h a (List.mem_cons_self a t) h1)]
        exact ih fun a' ha' => h a' (List.mem_cons_of_mem a ha')
      · rw [if_neg h1]

theorem dropWhile_concat_of_neg {α : Type} (p : α → Bool) (l : List α) (x : α)
    (hx : p x = false) :
    (l ++ [x]).dropWhile p = l.dropWhile p ++ [x] := by
  induction l with
  | nil => simp [List.dropWhile_cons, hx]
  | cons a t ih =>
      rw [List.cons_append, List.dropWhile_cons, List.dropWhile_cons]
      by_cases h : p a
      · rw [if_pos h, if_pos h, ih]
      · rw [if_neg h, if_neg h, List.cons_append]


/-- In both tracker situations left by the pruning loop (reset, or correct
for the pruned window `w'`), `rangeNewMinMax` produces the exact min and max
of the new window `w' ++ [x]`. -/
theorem rangeNewMinMax_spec (t : ℚ × ℚ) (w' : List (ℚ × ℤ)) (x : ℚ × ℤ)
    (hvw' : ∀ p ∈ w', p.1 > TDF_SMALLEST_VALID_VALUE)
    (hx : x.1 > TDF_SMALLEST_VALID_VALUE)
    (ht : t = (TDF_INVALID_VALUE, TDF_INVALID_VALUE) ∨
      (w' ≠ [] ∧ t.1 = listMinQ (w'.map Prod.fst) ∧ t.2 = listMaxQ (w'.map Prod.fst))) :
    rangeNewMinMax t x.1 ((w' ++ [x]).map obsEntry) =
      (listMinQ ((w' ++ [x]).map Prod.fst), listMaxQ ((w' ++ [x]).map Prod.fst)) := by
  have hmapv : ∀ u : List (ℚ × ℤ), (u.map obsEntry).map TFEntry.v = u.map Prod.fst := by
    intro u; rw [List.map_map]; rfl
  have hq2valid : ∀ e ∈ (w' ++ [x]).map obsEntry, e.v > TDF_SMALLEST_VALID_VALUE := by
    intro e he
    rcases List.mem_map.mp he with ⟨p, hp, rfl⟩
    rcases List.mem_append.mp hp with hp | hp
    · exact hvw' p hp
    · rw [List.mem_singleton.mp hp]; exact hx
  rcases ht with rfl | ⟨hw'ne, hmn, hmx⟩
  · rw [rangeNewMinMax, if_pos (Or.inl rfl),
      recomputeMinMax_spec _ hq2valid (by simp), hmapv]
  · have hw'mapne : w'.map Prod.fst ≠ [] := by simpa using hw'ne
    have hminvalid : listMinQ (w'.map Prod.fst) > TDF_SMALLEST_VALID_VALUE :=
      listMinQ_valid _ hw'mapne fun y hy => by
        rcases List.mem_map.mp hy with ⟨p, hp, rfl⟩
        exact hvw' p hp
    have hmaxvalid : listMaxQ (w'.map Prod.fst) > TDF_SMALLEST_VALID_VALUE :=
      listMaxQ_valid _ hw'mapne fun y hy => by
        rcases List.mem_map.mp hy with ⟨p, hp, rfl⟩
        exact hvw' p hp
    rw [rangeNewMinMax,
      if_neg (by
        push_neg
        rw [hmn, hmx]
        exact ⟨valid_ne_invalid _ hmaxvalid, valid_ne_invalid _ hminvalid⟩),
      hmn, hmx]
    rw [if_congr (or_iff_right (valid_ne_invalid _ hminvalid)) rfl rfl,
      if_congr (or_iff_right (valid_ne_invalid _ hmaxvalid)) rfl rfl,
      if_le_eq_min, if_ge_eq_max, List.map_append]
    simp only [List.map_cons, List.map_nil]
    rw [listMinQ_concat _ _ hw'mapne, listMaxQ_concat _ _ hw'mapne]

/-- With correct min/max trackers, `rangeResult` in relative mode computes
exactly the amended relative-range formula. -/
theorem rangeResult_relRange (W : List ℚ)
    (hv : ∀ y ∈ W, y > TDF_SMALLEST_VALID_VALUE) :
    rangeResult false (listMinQ W, listMaxQ W) W.length = relRangeAmended W := by
  by_cases hlen : W.length ≤ 1
  · rw [rangeResult, if_pos (Or.inr (Or.inr hlen)), relRangeAmended, if_pos hlen]
  · have hWne : W ≠ [] := by
      intro h; rw [h] at hlen; exact hlen (by simp)
    have hmin := listMinQ_valid W hWne hv
    have hmax := listMaxQ_valid W hWne hv
    rw [rangeResult,
      if_neg (by
        push_neg
        exact ⟨valid_ne_invalid _ hmin, valid_ne_invalid _ hmax, by omega⟩),
      relRangeAmended, if_neg hlen]
    by_cases hz : listMinQ W = 0
    · rw [if_neg (by simp [hz]), if_pos hz]
    · rw [if_pos ⟨by simp, hz⟩, if_neg hz, if_neg hz]

/-- One `ComputeNewValue` call on a well-formed relative-range state whose
queue holds the window `w` with matching trackers: the queue is pruned to
the new day's window, the new observation appended, the trackers track the
new window, and the output is the amended relative-range formula over the
new window. -/
theorem crange_compute_spec (N : ℤ) (w : List (ℚ × ℤ))
    (hv : ∀ p ∈ w, p.1 > TDF_SMALLEST_VALID_VALUE)
    (x : ℚ × ℤ) (hx : x.1 > TDF_SMALLEST_VALID_VALUE) :
    (mkRangeState N w).ComputeNewValue x.1 x.2 0 =
      (relRangeAmended ((windowOf N x.2 w ++ [x]).map Prod.fst),
       mkRangeState N (windowOf N x.2 w ++ [x])) := by
  have hmapv : ∀ u : List (ℚ × ℤ), (u.map obsEntry).map TFEntry.v = u.map Prod.fst := by
    intro u; rw [List.map_map]; rfl
  have hventries : ∀ e ∈ w.map obsEntry, e.v > TDF_SMALLEST_VALID_VALUE := by
    intro e he
    rcases List.mem_map.mp he with ⟨p, hp, rfl⟩
    exact hv p hp
  have hfst : (rangePrune N x.2 (w.map obsEntry)
      (listMinQ (w.map Prod.fst)) (listMaxQ (w.map Prod.fst))).1 =
      (windowOf N x.2 w).map obsEntry := by
    rw [rangePrune_fst, dropWhile_map, windowOf]
    rfl
  have hwin_sub : ∀ p ∈ windowOf N x.2 w, p ∈ w := fun p hp =>
    (List.dropWhile_sublist _).subset hp
  have hvw' : ∀ p ∈ windowOf N x.2 w, p.1 > TDF_SMALLEST_VALID_VALUE :=
    fun p hp => hv p (hwin_sub p hp)
  have htr : (rangePrune N x.2 (w.map obsEntry)
        (listMinQ (w.map Prod.fst)) (listMaxQ (w.map Prod.fst))).2 =
        (TDF_INVALID_VALUE, TDF_INVALID_VALUE) ∨
      (windowOf N x.2 w ≠ [] ∧
       (rangePrune N x.2 (w.map obsEntry)
        (listMinQ (w.map Prod.fst)) (listMaxQ (w.map Prod.fst))).2.1 =
          listMinQ ((windowOf N x.2 w).map Prod.fst) ∧
       (rangePrune N x.2 (w.map obsEntry)
        (listMinQ (w.map Prod.fst)) (listMaxQ (w.map Prod.fst))).2.2 =
          listMaxQ ((windowOf N x.2 w).map Prod.fst)) := by
    rcases eq_or_ne w [] with rfl | hw
    · left; rfl
    · rcases rangePrune_trackers N x.2 (w.map obsEntry) _ _ hventries
        (by simpa using hw) (by rw [hmapv]) (by rw [hmapv]) with h | ⟨h1, h2, h3⟩
      · exact Or.inl h
      · refine Or.inr ⟨?_, ?_, ?_⟩
        · rw [hfst] at h1; simpa using h1
        · rw [h2, hfst, hmapv]
        · rw [h3, hfst, hmapv]
  have hq2 : (rangePrune N x.2 (w.map obsEntry)
      (listMinQ (w.map Prod.fst)) (listMaxQ (w.map Prod.fst))).1 ++
      [(⟨x.1, x.2, 0⟩ : TFEntry)] = (windowOf N x.2 w ++ [x]).map obsEntry := by
    rw [hfst, List.map_append]
    rfl
  have hmm := rangeNewMinMax_spec _ (windowOf N x.2 w) x hvw' hx htr
  simp only [CRangeValue.ComputeNewValue, mkRangeState]
  rw [hq2, hmm]
  have hlenW : ((windowOf N x.2 w ++ [x]).map obsEntry).length =
      ((windowOf N x.2 w ++ [x]).map Prod.fst).length := by
    rw [List.length_map, List.length_map]
  rw [hlenW, rangeResult_relRange _ (fun y hy => by
    rcases List.mem_map.mp hy with ⟨p, hp, rfl⟩
    rcases List.mem_append.mp hp with hp | hp
    · exact hvw' p hp
    · rw [List.mem_singleton.mp hp]; exact hx)]

theorem feedRangeState_concat (s : CRangeValue) (l : List (ℚ × ℤ)) (x : ℚ × ℤ) :
    feedRangeState s (l ++ [x]) = ((feedRangeState s l).ComputeNewValue x.1 x.2 0).2 := by
  induction l generalizing s with
  | nil => rcases x with ⟨v, d⟩; rfl
  | cons p t ih =>
      rcases p with ⟨v, d⟩
      rw [List.cons_append]
      show feedRangeState (s.ComputeNewValue v d 0).2 (t ++ [x]) = _
      rw [ih]
      rfl

theorem feedRangeOut_concat (s : CRangeValue) (l : List (ℚ × ℤ)) (x : ℚ × ℤ) :
    feedRangeOut s (l ++ [x]) = ((feedRangeState s l).ComputeNewValue x.1 x.2 0).1 := by
  induction l generalizing s with
  | nil => rcases x with ⟨v, d⟩; rfl
  | cons p t ih =>
      rcases p with ⟨v, d⟩
      rcases x with ⟨xv, xd⟩
      rcases t with _ | ⟨q, t'⟩
      · rfl
      · rw [List.cons_append]
        show feedRangeOut (s.ComputeNewValue v d 0).2 ((q :: t') ++ [(xv, xd)]) = _
        rw [ih]
        rfl

theorem lastDay_concat (l : List (ℚ × ℤ)) (x : ℚ × ℤ) :
    lastDay (l ++ [x]) = x.2 := by
  rw [lastDay, List.getLast?_concat]

theorem lastDay_mem (l : List (ℚ × ℤ)) (hl : l ≠ []) :
    ∃ p ∈ l, p.2 = lastDay l := by
  induction l with
  | nil => exact absurd rfl hl
  | cons a t ih =>
      rcases eq_or_ne t [] with rfl | ht
      · exact ⟨a, List.mem_cons_self a [], rfl⟩
      · rcases ih ht with ⟨p, hp, hpd⟩
        refine ⟨p, List.mem_cons_of_mem a hp, ?_⟩
        rcases t with _ | ⟨b, t'⟩
        · exact absurd rfl ht
        · rw [hpd, lastDay, lastDay, List.getLast?_cons_cons]

/-- After feeding a nondecreasing-day, valid-valued observation stream, the
relative-range state is exactly the well-formed state of the stream's pruned
window. -/
theorem feedRangeState_spec (N : ℤ) (hN : 0 ≤ N) (obs : List (ℚ × ℤ)) :
    (∀ p ∈ obs, p.1 > TDF_SMALLEST_VALID_VALUE) →
    List.Pairwise (fun a b : ℚ × ℤ => a.2 ≤ b.2) obs →
    feedRangeState (CRangeValue.init false N) obs =
      mkRangeState N (windowOf N (lastDay obs) obs) := by
  induction obs using List.reverseRecOn with
  | nil => intro _ _; rfl
  | append_singleton l x ih =>
      intro hv hmono
      have hvl : ∀ p ∈ l, p.1 > TDF_SMALLEST_VALID_VALUE :=
        fun p hp => hv p (List.mem_append.mpr (Or.inl hp))
      have hmonol : List.Pairwise (fun a b : ℚ × ℤ => a.2 ≤ b.2) l :=
        (List.pairwise_append.mp hmono).1
      have hle : ∀ p ∈ l, p.2 ≤ x.2 := by
        intro p hp
        exact (List.pairwise_append.mp hmono).2.2 p hp x (List.mem_singleton_self x)
      have hx : x.1 > TDF_SMALLEST_VALID_VALUE :=
        hv x (List.mem_append.mpr (Or.inr (List.mem_singleton_self x)))
      rw [feedRangeState_concat, ih hvl hmonol, lastDay_concat]
      have hvwl : ∀ p ∈ windowOf N (lastDay l) l, p.1 > TDF_SMALLEST_VALID_VALUE :=
        fun p hp => hvl p ((List.dropWhile_sublist _).subset hp)
      rw [crange_compute_spec N _ hvwl x hx]
      -- identify the windows
      have hxfalse : (fun p : ℚ × ℤ => decide (x.2 - p.2 > N)) x = false := by
        simp only [decide_eq_false_iff_not, not_lt, sub_self]
        omega
      have hwinmerge : windowOf N x.2 (windowOf N (lastDay l) l) = windowOf N x.2 l := by
        rcases eq_or_ne l [] with rfl | hlne
        · rfl
        · rcases lastDay_mem l hlne with ⟨pl, hpl, hpld⟩
          have hlastle : lastDay l ≤ x.2 := by rw [← hpld]; exact hle pl hpl
          exact dropWhile_dropWhile _ _ l fun a _ha h1 => by
            simp only [decide_eq_true_eq] at h1 ⊢
            omega
      have hwin : windowOf N x.2 (l ++ [x]) =
          windowOf N x.2 (windowOf N (lastDay l) l) ++ [x] := by
        rw [hwinmerge]
        exact dropWhile_concat_of_neg _ l x hxfalse
      rw [hwin]

/-- C7 amended: for every window size N ≥ 0 and every stream of valid
observations fed in nondecreasing day order, the relative Range function
(Range with absolute=false) returns invalid when at most one observation is
retained in the pruned window; otherwise it returns (max − min) of the
window divided by the window minimum when that minimum is nonzero, and the
raw (max − min) — not 0 — when the window minimum is 0. -/
theorem C7_relrange_amended (N : ℤ) (hN : 0 ≤ N) (obs : List (ℚ × ℤ))
    (hobs : obs ≠ [])
    (hv : ∀ p ∈ obs, p.1 > TDF_SMALLEST_VALID_VALUE)
    (hmono : List.Pairwise (fun a b : ℚ × ℤ => a.2 ≤ b.2) obs) :
    feedRangeOut (CRangeValue.init false N) obs =
      relRangeAmended ((windowOf N (lastDay obs) obs).map Prod.fst) := by
  obtain ⟨l, x, rfl⟩ : ∃ l x, obs = l ++ [x] := by
    rcases List.eq_nil_or_concat obs with rfl | ⟨l, x, h⟩
    · exact absurd rfl hobs
    · exact ⟨l, x, by rw [h, List.concat_eq_append]⟩
  · have hvl : ∀ p ∈ l, p.1 > TDF_SMALLEST_VALID_VALUE :=
      fun p hp => hv p (List.mem_append.mpr (Or.inl hp))
    have hmonol : List.Pairwise (fun a b : ℚ × ℤ => a.2 ≤ b.2) l :=
      (List.pairwise_append.mp hmono).1
    have hle : ∀ p ∈ l, p.2 ≤ x.2 := by
      intro p hp
      exact (List.pairwise_append.mp hmono).2.2 p hp x (List.mem_singleton_self x)
    have hx : x.1 > TDF_SMALLEST_VALID_VALUE :=
      hv x (List.mem_append.mpr (Or.inr (List.mem_singleton_self x)))
    have hvwl : ∀ p ∈ windowOf N (lastDay l) l, p.1 > TDF_SMALLEST_VALID_VALUE :=
      fun p hp => hvl p ((List.dropWhile_sublist _).subset hp)
    rw [feedRangeOut_concat, feedRangeState_spec N hN l hvl hmonol,
      crange_compute_spec N _ hvwl x hx, lastDay_concat]
    have hxfalse : (fun p : ℚ × ℤ => decide (x.2 - p.2 > N)) x = false := by
      simp only [decide_eq_false_iff_not, not_lt, sub_self]
      omega
    have hwinmerge : windowOf N x.2 (windowOf N (lastDay l) l) = windowOf N x.2 l := by
      rcases eq_or_ne l [] with rfl | hlne
      · rfl
      · rcases lastDay_mem l hlne with ⟨pl, hpl, hpld⟩
        have hlastle : lastDay l ≤ x.2 := by rw [← hpld]; exact hle pl hpl
        exact dropWhile_dropWhile _ _ l fun a _ha h1 => by
          simp only [decide_eq_true_eq] at h1 ⊢
          omega
    have hwin : windowOf N x.2 (l ++ [x]) =
        windowOf N x.2 (windowOf N (lastDay l) l) ++ [x] := by
      rw [hwinmerge]
      exact dropWhile_concat_of_neg _ l x hxfalse
    rw [hwin]

/-- Witness for the amended C7: window 7 days, observations (1, day 0) and
(3, day 1); both retained, minimum 1, output (3 − 1) / 1 = 2. -/
theorem C7_relrange_amended_witness :
    (0 : ℤ) ≤ 7 ∧ ([((1 : ℚ), (0 : ℤ)), (3, 1)] ≠ []) ∧
    (∀ p ∈ [((1 : ℚ), (0 : ℤ)), (3, 1)], p.1 > TDF_SMALLEST_VALID_VALUE) ∧
    List.Pairwise (fun a b : ℚ × ℤ => a.2 ≤ b.2) [((1 : ℚ), (0 : ℤ)), (3, 1)] ∧
    feedRangeOut (CRangeValue.init false 7) [((1 : ℚ), (0 : ℤ)), (3, 1)] =
      relRangeAmended ((windowOf 7 (lastDay [((1 : ℚ), (0 : ℤ)), (3, 1)])
        [((1 : ℚ), (0 : ℤ)), (3, 1)]).map Prod.fst) :=
  ⟨by decide, by decide, by decide, by decide,
    C7_relrange_amended 7 (by decide) [((1 : ℚ), (0 : ℤ)), (3, 1)]
      (by decide) (by decide) (by decide)⟩

/-! ### CTimeSeries (tdfTimeFunctions.py lines 136-279)

Used only for the 7-day baseline-creatinine trailing window. -/

/-- Banker's rounding of `q * 100`, i.e. Python's `round(q, 2)` numerator. -/
def roundHalfEven (q : ℚ) : ℤ :=
  let f := ⌊q⌋
  if q - f < 1/2 then f
  else if q - f > 1/2 then f + 1
  else if Even f then f else f + 1

/-- Python `round(x, 2)`. -/
def pyRound2 (q : ℚ) : ℚ := (roundHalfEven (q * 100) : ℚ) / 100

/-- State of a CTimeSeries (constructor at lines 140-154).  The queue holds
dicts created with only the keys 'v', 'd' and 'm' (line 180). -/
structure CTimeSeries where
  maxHistoryInDays : ℤ
  ValueQueue : List TFEntry
  lowestValue : ℚ
  MostRecentValue : ℚ
  MostRecentDay : ℤ
  MostRecentHour : ℤ
  MostRecentMin : ℤ
  OldestDay : ℤ
  OldestHour : ℤ
  OldestMin : ℤ
deriving DecidableEq, Repr

/-- `CTimeSeries(maxHistoryInDays)`: every tracker starts at −1. -/
def CTimeSeries.init (maxHistoryInDays : ℤ) : CTimeSeries :=
  ⟨maxHistoryInDays, [], -1, -1, -1, -1, -1, -1, -1, -1⟩

/-- `CTimeSeries.AddNewValue(value, timeInDays, timeMin)` (lines 174-233).
The new entry is appended before pruning.  When pruning triggers
(`timeInDays - OldestDay > maxHistoryInDays`), the first loop iteration pops
the front entry and then reads `oldestValue['h']` (line 213) from an entry
that was created with only the keys 'v', 'd' and 'm', raising an uncaught
KeyError (an IndexError at line 211 if the popped entry was the only one). -/
def CTimeSeries.AddNewValue (s : CTimeSeries) (value : ℚ) (timeInDays timeMin : ℤ) :
    Except String CTimeSeries :=
  let q1 := s.ValueQueue ++ [⟨value, timeInDays, timeMin⟩]
  let s1 : CTimeSeries :=
    { s with ValueQueue := q1,
             MostRecentValue := pyRound2 value,
             MostRecentDay := timeInDays,
             MostRecentMin := timeMin,
             lowestValue := if s.lowestValue = -1 ∨ value < s.lowestValue
                            then value else s.lowestValue }
  if s1.OldestDay = -1 ∧ s1.OldestMin = -1 then
    Except.ok { s1 with OldestDay := timeInDays, OldestMin := timeMin }
  else if timeInDays - s1.OldestDay > s1.maxHistoryInDays then
    if s.ValueQueue = [] then Except.error "IndexError"
    else Except.error "KeyError: 'h'"
  else
    Except.ok s1

/-- `CTimeSeries.GetLowestValue()` (lines 242-252): Python `None` when no
value was ever added, else the tracked lowest value. -/
def CTimeSeries.GetLowestValue (s : CTimeSeries) : Option ℚ :=
  if s.MostRecentValue = -1 then none else some s.lowestValue

/-! ### The forward/reverse compile pipeline for the Cr / BaselineCr / InAKI
variable family (tdfTools.py CompileTimelineImpl, lines 2006-2289)

Scope of the model: variable lists drawn from {"Cr", "BaselineCr", "InAKI"}
(the variables claims C2, C4 and C9 are about), timelines whose raw nodes
are lab data nodes (class "L") carrying already-parsed numeric assignments.
The sections of the passes that only touch other variables (GFR, MELD,
BaselineGFR, the future-event variables, event nodes) are noted where they
are skipped; none of them reads or writes the keys used here. -/

/-- A TimePoint's variable snapshot: Python dict name → value
(`none` = key absent; a KeyError caught by try/except reads `none`). -/
def Snapshot := String → Option ℚ

/-- Dict store `snap[k] = v`. -/
def Snapshot.set (s : Snapshot) (k : String) (v : ℚ) : Snapshot :=
  fun k' => if k' = k then some v else s k'

/-- Empty dict. -/
def Snapshot.empty : Snapshot := fun _ => none

/-- Dict read with try/except returning the invalid value (the pattern used
throughout the passes). -/
def Snapshot.getI (s : Snapshot) (k : String) : ℚ :=
  match s k with
  | some v => v
  | none => TDF_INVALID_VALUE

def TDF_DATA_TYPE_INT : ℕ := 0
def TDF_DATA_TYPE_FLOAT : ℕ := 1
def TDF_DATA_TYPE_BOOL : ℕ := 2
def TDF_DATA_TYPE_FUTURE_EVENT_CLASS : ℕ := 3
def TDF_DATA_TYPE_STRING_LIST : ℕ := 4

/-- The fields of one g_LabValueInfo row that the embedded code reads. -/
structure LabInfo where
  minVal : ℚ
  maxVal : ℚ
  dataType : ℕ
  calculated : Bool
deriving DecidableEq, Repr

/-- The g_LabValueInfo rows for the modeled variables
(tdfMedicineValues.py lines 184, 273, 284, 285, 286, 287).  Note
`Calculated` is False for Cr, BaselineCr and InAKI, and True for GFR, MELD
and BaselineGFR. -/
def g_LabValueInfo : String → Option LabInfo := fun name =>
  if name = "Cr" then some ⟨1/2, 6, TDF_DATA_TYPE_FLOAT, false⟩
  else if name = "BaselineCr" then some ⟨3/10, 8, TDF_DATA_TYPE_FLOAT, false⟩
  else if name = "InAKI" then some ⟨0, 1, TDF_DATA_TYPE_BOOL, false⟩
  else if name = "GFR" then some ⟨5, 60, TDF_DATA_TYPE_FLOAT, true⟩
  else if name = "MELD" then some ⟨1, 50, TDF_DATA_TYPE_INT, true⟩
  else if name = "BaselineGFR" then some ⟨10, 60, TDF_DATA_TYPE_INT, true⟩
  else none

/-- One compiled TimePoint: day number and snapshot (timelineEntry dicts
'TimeDays' and 'data'; the 'TID' counter and XML node references are not
needed by any claim). -/
structure TimelineEntry where
  TimeDays : ℤ
  data : Snapshot

/-- One `name=value` assignment of a lab data node, applied by
`ProcessDataNodeForwardImpl` (lines 2310-2368): unknown or unrequested
names are dropped, `GFR` is never taken from the file, ridiculous values
(below the invalid threshold or ≥ 10× max) are dropped, and the value is
clipped into [minVal, maxVal].  (String-to-float parsing happens upstream
of this model: assignments arrive as numbers.) -/
def applyAssignment (varList : List String) (snap : Snapshot) (a : String × ℚ) :
    Snapshot :=
  match g_LabValueInfo a.1 with
  | none => snap
  | some info =>
      if a.1 ∉ varList then snap
      else if a.1 = "GFR" then snap
      else if a.2 < TDF_SMALLEST_VALID_VALUE ∨ a.2 ≥ 10 * info.maxVal then snap
      else
        snap.set a.1
          (if a.2 < info.minVal then info.minVal
           else if a.2 > info.maxVal then info.maxVal
           else a.2)

/-- `CalculateDerivedValuesFORWARDPass(varName, currentDayNum, varValueDict)`
restricted to the modeled variables: of these only "BaselineCr" has a branch
(lines 2479-2491); "Cr" and "InAKI" have none, so the function is a no-op
for them.  When the branch does run with `baselineCrSeries is None` (which
is how the reader leaves it whenever the requested list does not contain
the exact lowercase string "baselineCr", line 2075), the attribute access
raises; when `GetLowestValue()` returns Python `None`, the dict stores
`None`, which the reverse pass would later compare against a float and
raise TypeError — both are modeled as errors. -/
def calculateDerivedValuesFORWARDPass (varName : String) (currentDayNum : ℤ)
    (snap : Snapshot) (series : Option CTimeSeries) :
    Except String (Snapshot × Option CTimeSeries) :=
  if varName = "BaselineCr" then
    let currrentCr := snap.getI "Cr"
    match series with
    | none => Except.error "AttributeError: 'NoneType' object has no attribute"
    | some ser => do
        let ser ←
          if currrentCr > TDF_SMALLEST_VALID_VALUE then
            ser.AddNewValue currrentCr currentDayNum 0
          else pure ser
        match ser.GetLowestValue with
        | some r => pure (snap.set "BaselineCr" r, some ser)
        | none => Except.error "TypeError: stored None compared on reverse pass"
  else
    pure (snap, series)

/-- Forward-pass accumulator: the running latest snapshot, the compiled
timeline so far, and the baseline-Cr series. -/
structure FwdState where
  latest : Snapshot
  timeline : List TimelineEntry
  baselineCrSeries : Option CTimeSeries

/-- The initial accumulator (lines 2040-2076 restricted to the modeled
variables): `InAKI` is pre-set to the invalid value when requested, and the
baseline series is created only when the lowercase name "baselineCr" is in
the variable list. -/
def initFwdState (varList : List String) : FwdState :=
  ⟨(if "InAKI" ∈ varList then Snapshot.empty.set "InAKI" TDF_INVALID_VALUE
    else Snapshot.empty),
   [],
   (if "baselineCr" ∈ varList then some (CTimeSeries.init 7) else none)⟩

/-- One lab data node on the forward pass (lines 2100-2238 for a class-"L"
data node): reuse the TimePoint on an exact same-day match, otherwise start
a new TimePoint seeded from the previous snapshot (carry-forward is enabled
by default, and every modeled variable has the empty post-step action, line
2190); then apply the day's assignments and run the special calculated
variables (only descriptors with `Calculated` set, lines 2228-2234). -/
def forwardStep (varList : List String) (st : FwdState)
    (node : ℤ × List (String × ℚ)) : Except String FwdState := do
  let sameDay : Bool :=
    match st.timeline.getLast? with
    | some e => decide (e.TimeDays = node.1)
    | none => false
  let snap1 := node.2.foldl (applyAssignment varList) st.latest
  let acc ← varList.foldlM
    (fun (acc : Snapshot × Option CTimeSeries) varName =>
      match g_LabValueInfo varName with
      | some info =>
          if info.calculated then
            calculateDerivedValuesFORWARDPass varName node.1 acc.1 acc.2
          else pure acc
      | none => pure acc)
    (snap1, st.baselineCrSeries)
  let entry : TimelineEntry := ⟨node.1, acc.1⟩
  pure ⟨acc.1,
    (if sameDay then st.timeline.dropLast ++ [entry] else st.timeline ++ [entry]),
    acc.2⟩

/-- The forward pass over a subject's lab data nodes. -/
def compileForwardPass (varList : List String)
    (nodes : List (ℤ × List (String × ℚ))) : Except String (List TimelineEntry) :=
  (nodes.foldlM (forwardStep varList) (initFwdState varList)).map (·.timeline)

/-- Reverse-pass running state (line 2073: starts invalid). -/
structure RevState where
  FutureBaselineCr : ℚ

/-- `CalculateAllDerivedValuesREVERSEPass` (lines 3138-3238) restricted to
the BaselineCr section (3157-3179) and the InAKI section (3206-3238); the
BaselineGFR and future-event sections write only their own keys, none of
which occur in the modeled variable lists.  Faithful details: the InAKI
section reads the snapshot key `'currentCr'` (line 3209) — no writer ever
stores that key (creatinine is stored under `'Cr'`), so the try/except
yields the invalid value; and `deltaCr >= 1.5 * baselineCr` /
`baselineCr <= 1.5 and deltaCr >= 0.3` each force inAKI = 1. -/
def calculateAllDerivedValuesREVERSEPass (varList : List String) (st : RevState)
    (snap : Snapshot) (currentDayNum : ℤ) : RevState × Snapshot :=
  let stSnap :=
    if "BaselineCr" ∈ varList then
      let baselineCr := snap.getI "BaselineCr"
      let currentCr := snap.getI "Cr"
      let fut :=
        if currentCr > TDF_SMALLEST_VALID_VALUE ∧
            (st.FutureBaselineCr < TDF_SMALLEST_VALID_VALUE ∨
             currentCr < st.FutureBaselineCr)
        then currentCr else st.FutureBaselineCr
      let snap :=
        if fut > TDF_SMALLEST_VALID_VALUE ∧ fut < baselineCr
        then snap.set "BaselineCr" fut else snap
      (RevState.mk fut, snap)
    else (st, snap)
  let snap2 :=
    if "InAKI" ∈ varList then
      let snap := stSnap.2
      let currentCr := snap.getI "currentCr"
      let baselineCr := snap.getI "BaselineCr"
      let inAKI : ℚ :=
        if currentCr > TDF_SMALLEST_VALID_VALUE ∧
            baselineCr > TDF_SMALLEST_VALID_VALUE then
          let deltaCr := currentCr - baselineCr
          if (baselineCr ≤ 3/2 ∧ deltaCr ≥ 3/10) ∨ deltaCr ≥ 3/2 * baselineCr
          then 1 else 0
        else 0
      let snap := snap.set "InAKI" inAKI
      if inAKI ≠ 0 then snap.set "NextAKIDate" (currentDayNum : ℚ)
      else snap.set "NextCrAtBaselineDate" (currentDayNum : ℚ)
    else stSnap.2
  (stSnap.1, snap2)

/-- The reverse pass: walk the timeline from last to first, threading the
running state and rewriting each snapshot in place. -/
def revFold (varList : List String) :
    List TimelineEntry → RevState → RevState × List TimelineEntry
  | [], st => (st, [])
  | e :: rest, st =>
      let r := revFold varList rest st
      let p := calculateAllDerivedValuesREVERSEPass varList r.1 e.data e.TimeDays
      (p.1, ⟨e.TimeDays, p.2⟩ :: r.2)

/-- Full compilation for the modeled variable family: forward pass, then
reverse pass starting from an invalid FutureBaselineCr. -/
def compileTimeline (varList : List String)
    (nodes : List (ℤ × List (String × ℚ))) : Except String (List TimelineEntry) :=
  (compileForwardPass varList nodes).map
    (fun tl => (revFold varList tl ⟨TDF_INVALID_VALUE⟩).2)

/-- Look up a variable value at a given day of a compiled timeline. -/
def getTimelineValue (tl : List TimelineEntry) (day : ℤ) (name : String) :
    Option ℚ :=
  match tl.find? (fun e => e.TimeDays = day) with
  | some e => e.data name
  | none => none

/-! ### Claim C9: the CTimeSeries pruning KeyError and its (un)reachability -/

theorem foldlM_except_ok {α β : Type} (f : β → α → Except String β)
    (h : ∀ b a, ∃ r, f b a = .ok r) :
    ∀ (l : List α) (b : β), ∃ r, l.foldlM f b = .ok r := by
  intro l
  induction l with
  | nil => intro b; exact ⟨b, rfl⟩
  | cons x xs ih =>
      intro b
      rcases h b x with ⟨r, hr⟩
      rcases ih r with ⟨r2, hr2⟩
      refine ⟨r2, ?_⟩
      rw [List.foldlM_cons, hr]
      exact hr2

theorem except_ok_exists {α : Type} {x : Except String α} (h : x.isOk = true) :
    ∃ a, x = .ok a := by
  cases x with
  | error e => simp [Except.isOk, Except.toBool] at h
  | ok a => exact ⟨a, rfl⟩

theorem fwdCalc_step_ok (day : ℤ) (acc : Snapshot × Option CTimeSeries)
    (varName : String) :
    ∃ r, (match g_LabValueInfo varName with
      | some info =>
          if info.calculated then
            calculateDerivedValuesFORWARDPass varName day acc.1 acc.2
          else pure acc
      | none => pure acc) = Except.ok r := by
  rcases hg : g_LabValueInfo varName with _ | info
  · exact ⟨acc, rfl⟩
  · show ∃ r, (if info.calculated = true then
        calculateDerivedValuesFORWARDPass varName day acc.1 acc.2
      else pure acc) = Except.ok r
    by_cases hc : info.calculated
    · by_cases hb : varName = "BaselineCr"
      · subst hb
        have : info = ⟨3/10, 8, TDF_DATA_TYPE_FLOAT, false⟩ := by
          simp [g_LabValueInfo] at hg
          exact hg.symm
        rw [this] at hc
        exact absurd hc (by simp)
      · refine ⟨(acc.1, acc.2), ?_⟩
        rw [if_pos hc, calculateDerivedValuesFORWARDPass, if_neg hb]
        rfl
    · exact ⟨acc, by rw [if_neg (by simpa using hc)]; rfl⟩

theorem foldlM_except_isOk {α β : Type} (f : β → α → Except String β)
    (h : ∀ b a, (f b a).isOk = true) :
    ∀ (l : List α) (b : β), (l.foldlM f b).isOk = true := by
  intro l
  induction l with
  | nil => intro b; rfl
  | cons x xs ih =>
      intro b
      obtain ⟨r, hr⟩ := except_ok_exists (h b x)
      rw [List.foldlM_cons, hr]
      exact ih r

theorem forwardStep_isOk (varList : List String) (st : FwdState)
    (node : ℤ × List (String × ℚ)) :
    (forwardStep varList st node).isOk = true := by
  rcases foldlM_except_ok _ (fwdCalc_step_ok node.1) varList
      (node.2.foldl (applyAssignment varList) st.latest, st.baselineCrSeries) with ⟨r, hr⟩
  rw [forwardStep, hr]
  rfl

/-- In the modeled pipeline, compilation never raises: the BaselineCr branch
of the forward pass (the only fallible code) is gated on the descriptor's
`Calculated` flag, and BaselineCr's descriptor has `Calculated: False`. -/
theorem compileTimeline_ok (varList : List String)
    (nodes : List (ℤ × List (String × ℚ))) :
    ∃ tl, compileTimeline varList nodes = .ok tl := by
  obtain ⟨st, hst⟩ := except_ok_exists
    (foldlM_except_isOk (forwardStep varList)
      (fun b a => forwardStep_isOk varList b a) nodes (initFwdState varList))
  refine ⟨(revFold varList st.timeline ⟨TDF_INVALID_VALUE⟩).2, ?_⟩
  rw [compileTimeline, compileForwardPass, hst]
  rfl

/-- C9 counterexample: a timeline requesting BaselineCr (with its dependency
Cr) whose valid creatinine values lie 10 > 7 days apart compiles without any
exception, contradicting the claim that such a compilation aborts with a
KeyError. -/
theorem C9_compile_does_not_abort_counterexample :
    ((10 : ℤ) - 0 > 7) ∧
    (compileTimeline ["BaselineCr", "Cr"]
      [(0, [("Cr", 1)]), (10, [("Cr", 2)])]).isOk = true := by
  refine ⟨by decide, ?_⟩
  rcases compileTimeline_ok ["BaselineCr", "Cr"]
      [(0, [("Cr", 1)]), (10, [("Cr", 2)])] with ⟨tl, h⟩
  rw [h]
  rfl

/-- C9 amended: `CTimeSeries.AddNewValue` does raise an uncaught KeyError
('h') on any call, after at least one earlier call, whose day exceeds the
oldest retained day by more than `maxHistoryInDays` — the pruning branch
reads the key 'h' from entries created with only 'v', 'd' and 'm'.
However, compiling a timeline that requests BaselineCr never reaches this
code and never aborts: the BaselineCr forward computation is gated on the
descriptor's `Calculated` flag, which is False for BaselineCr (and the
series-creation guard tests the lowercase name "baselineCr"), so
compilation completes with BaselineCr simply never computed. -/
theorem C9_addnewvalue_keyerror_unreachable (s : CTimeSeries) (v : ℚ) (d m : ℤ)
    (hq : s.ValueQueue ≠ [])
    (hcalled : ¬(s.OldestDay = -1 ∧ s.OldestMin = -1))
    (hgap : d - s.OldestDay > s.maxHistoryInDays) :
    s.AddNewValue v d m = Except.error "KeyError: 'h'" ∧
    ∀ nodes, (compileTimeline ["BaselineCr", "Cr"] nodes).isOk = true := by
  constructor
  · rw [CTimeSeries.AddNewValue]
    rw [if_neg hcalled, if_pos hgap, if_neg hq]
  · intro nodes
    rcases compileTimeline_ok ["BaselineCr", "Cr"] nodes with ⟨tl, h⟩
    rw [h]
    rfl

/-- Witness for C9 at a concrete state: one retained observation at day 0,
next observation at day 10, window 7 days. -/
theorem C9_addnewvalue_keyerror_unreachable_witness :
    ((⟨7, [⟨1, 0, 0⟩], 1, 1, 0, -1, 0, 0, -1, 0⟩ : CTimeSeries).ValueQueue ≠ []) ∧
    ¬((⟨7, [⟨1, 0, 0⟩], 1, 1, 0, -1, 0, 0, -1, 0⟩ : CTimeSeries).OldestDay = -1 ∧
      (⟨7, [⟨1, 0, 0⟩], 1, 1, 0, -1, 0, 0, -1, 0⟩ : CTimeSeries).OldestMin = -1) ∧
    ((10 : ℤ) - (⟨7, [⟨1, 0, 0⟩], 1, 1, 0, -1, 0, 0, -1, 0⟩ : CTimeSeries).OldestDay >
      (⟨7, [⟨1, 0, 0⟩], 1, 1, 0, -1, 0, 0, -1, 0⟩ : CTimeSeries).maxHistoryInDays) ∧
    ((⟨7, [⟨1, 0, 0⟩], 1, 1, 0, -1, 0, 0, -1, 0⟩ : CTimeSeries).AddNewValue 2 10 0 =
      Except.error "KeyError: 'h'" ∧
     ∀ nodes, (compileTimeline ["BaselineCr", "Cr"] nodes).isOk = true) :=
  ⟨by decide, by decide, by decide,
    C9_addnewvalue_keyerror_unreachable ⟨7, [⟨1, 0, 0⟩], 1, 1, 0, -1, 0, 0, -1, 0⟩
      2 10 0 (by decide) (by decide) (by decide)⟩

/-! ### Claim C2: the AKI example scenario -/

/-- C2 (code bug): compiling the claim's scenario — creatinine 1.0 on day
100, 2.9 on day 103, 1.4 on days 110 and 117 — with InAKI, Cr and
BaselineCr requested yields a timeline where InAKI is 0 on day 103 (the
claim requires 1: the reverse pass reads the snapshot key 'currentCr',
which no code ever writes, so the comparison against baseline never runs)
and BaselineCr is absent on day 100 (the claim requires 1.0: the forward
BaselineCr computation is gated on a `Calculated` flag that is False). -/
theorem C2_aki_scenario_code_bug :
    (compileTimeline ["InAKI", "Cr", "BaselineCr"]
        [(100, [("Cr", 1)]), (103, [("Cr", 29/10)]),
         (110, [("Cr", 7/5)]), (117, [("Cr", 7/5)])]).map
      (fun tl =>
        (getTimelineValue tl 103 "InAKI", getTimelineValue tl 110 "InAKI",
         getTimelineValue tl 100 "BaselineCr")) =
      Except.ok (some 0, some 0, none) := by
  norm_num +decide [compileTimeline, compileForwardPass, forwardStep, initFwdState,
    applyAssignment, calculateDerivedValuesFORWARDPass, g_LabValueInfo,
    revFold, calculateAllDerivedValuesREVERSEPass, getTimelineValue,
    Snapshot.set, Snapshot.getI, Snapshot.empty, TDF_INVALID_VALUE,
    TDF_SMALLEST_VALID_VALUE, List.foldlM, List.find?, Except.map, pure,
    Except.pure, bind, Except.bind]

/-! ### Claim C4: the baseline correction invariant -/

/-- The minimum of the valid snapshot creatinine values of a timeline
suffix (`none` when no valid creatinine occurs). -/
def minValidCrFrom : List TimelineEntry → Option ℚ
  | [] => none
  | e :: rest =>
      let acc := minValidCrFrom rest
      match e.data "Cr" with
      | some v =>
          if v > TDF_SMALLEST_VALID_VALUE then
            (match acc with
             | some mval => some (min v mval)
             | none => some v)
          else acc
      | none => acc

theorem minValidCrFrom_pos :
    ∀ (tl : List TimelineEntry) (mval : ℚ), minValidCrFrom tl = some mval →
      mval > TDF_SMALLEST_VALID_VALUE := by
  intro tl
  induction tl with
  | nil => intro mval h; simp [minValidCrFrom] at h
  | cons e rest ih =>
      intro mval h
      rcases hc : e.data "Cr" with _ | v
      · simp only [minValidCrFrom, hc] at h
        exact ih mval h
      · simp only [minValidCrFrom, hc] at h
        by_cases hv : v > TDF_SMALLEST_VALID_VALUE
        · rw [if_pos hv] at h
          rcases hr : minValidCrFrom rest with _ | mr
          · simp only [hr, Option.some.injEq] at h
            subst h
            exact hv
          · simp only [hr, Option.some.injEq] at h
            subst h
            exact lt_min hv (ih mr hr)
        · rw [if_neg hv] at h
          exact ih mval h

/-- The FutureBaselineCr update of one reverse-pass step (lines 3165-3174),
as a function of the previous running value and the TimePoint's snapshot. -/
def futStep (prev : ℚ) (snap : Snapshot) : ℚ :=
  if snap.getI "Cr" > TDF_SMALLEST_VALID_VALUE ∧
      (prev < TDF_SMALLEST_VALID_VALUE ∨ snap.getI "Cr" < prev)
  then snap.getI "Cr" else prev

/-- Representation of `minValidCrFrom` as a running value. -/
def minValidRep (o : Option ℚ) : ℚ :=
  match o with
  | some mval => mval
  | none => TDF_INVALID_VALUE

theorem futStep_minValid (e : TimelineEntry) (rest : List TimelineEntry) :
    futStep (minValidRep (minValidCrFrom rest)) e.data =
      minValidRep (minValidCrFrom (e :: rest)) := by
  have hINV : ¬ (TDF_INVALID_VALUE : ℚ) > TDF_SMALLEST_VALID_VALUE := by
    norm_num [TDF_INVALID_VALUE, TDF_SMALLEST_VALID_VALUE]
  rcases hc : e.data "Cr" with _ | v
  · have hg : e.data.getI "Cr" = TDF_INVALID_VALUE := by rw [Snapshot.getI, hc]
    simp only [futStep, minValidCrFrom, hc, hg]
    rw [if_neg (by rintro ⟨h1, _⟩; exact hINV h1)]
  · have hg : e.data.getI "Cr" = v := by rw [Snapshot.getI, hc]
    simp only [futStep, minValidCrFrom, hc, hg]
    by_cases hv : v > TDF_SMALLEST_VALID_VALUE
    · rw [if_pos hv]
      rcases hr : minValidCrFrom rest with _ | mr
      · simp only [hr, minValidRep]
        rw [if_pos ⟨hv, Or.inl (by
          norm_num [TDF_INVALID_VALUE, TDF_SMALLEST_VALID_VALUE])⟩]
      · have hmr := minValidCrFrom_pos rest mr hr
        simp only [hr, minValidRep]
        by_cases hlt : v < mr
        · rw [if_pos ⟨hv, Or.inr hlt⟩, min_eq_left (le_of_lt hlt)]
        · rw [if_neg (by
              rintro ⟨_, h2 | h2⟩
              · exact absurd h2 (not_lt.mpr (le_of_lt hmr))
              · exact hlt h2),
            min_eq_right (not_lt.mp hlt)]
    · rw [if_neg (fun hcon => hv hcon.1), if_neg hv]

/-- The reverse-pass state after one step is the futStep update (the
BaselineCr section runs whenever BaselineCr is requested). -/
theorem rev_state_char (varList : List String) (hBC : "BaselineCr" ∈ varList)
    (st : RevState) (snap : Snapshot) (day : ℤ) :
    (calculateAllDerivedValuesREVERSEPass varList st snap day).1 =
      ⟨futStep st.FutureBaselineCr snap⟩ := by
  simp only [calculateAllDerivedValuesREVERSEPass]
  rw [if_pos hBC]
  rfl

/-- The BaselineCr value stored by one reverse-pass step: the corrected
future minimum when it is valid and strictly below the stored baseline,
otherwise the stored value is untouched (the InAKI section writes only the
keys "InAKI", "NextAKIDate" and "NextCrAtBaselineDate"). -/
theorem rev_snap_baseline (varList : List String) (hBC : "BaselineCr" ∈ varList)
    (st : RevState) (snap : Snapshot) (day : ℤ) :
    (calculateAllDerivedValuesREVERSEPass varList st snap day).2 "BaselineCr" =
      (if futStep st.FutureBaselineCr snap > TDF_SMALLEST_VALID_VALUE ∧
          futStep st.FutureBaselineCr snap < snap.getI "BaselineCr"
       then some (futStep st.FutureBaselineCr snap)
       else snap "BaselineCr") := by
  simp only [calculateAllDerivedValuesREVERSEPass]
  rw [if_pos hBC]
  dsimp only
  by_cases hIA : "InAKI" ∈ varList
  · rw [if_pos hIA]
    simp only [apply_ite (fun s : Snapshot => s "BaselineCr")]
    simp +decide [Snapshot.set, futStep,
      apply_ite (fun s : Snapshot => s "BaselineCr")]
  · rw [if_neg hIA]
    simp only [apply_ite (fun s : Snapshot => s "BaselineCr")]
    simp +decide [Snapshot.set, futStep,
      apply_ite (fun s : Snapshot => s "BaselineCr")]

/-- The reverse-pass running FutureBaselineCr over a timeline equals the
minimum valid creatinine of that timeline. -/
theorem revFold_future (varList : List String) (hBC : "BaselineCr" ∈ varList) :
    ∀ tl : List TimelineEntry,
    (revFold varList tl ⟨TDF_INVALID_VALUE⟩).1.FutureBaselineCr =
      minValidRep (minValidCrFrom tl) := by
  intro tl
  induction tl with
  | nil => rfl
  | cons e rest ih =>
      show (calculateAllDerivedValuesREVERSEPass varList
          (revFold varList rest ⟨TDF_INVALID_VALUE⟩).1 e.data e.TimeDays).1.FutureBaselineCr = _
      rw [rev_state_char varList hBC]
      show futStep (revFold varList rest ⟨TDF_INVALID_VALUE⟩).1.FutureBaselineCr e.data = _
      rw [ih, futStep_minValid]

/-- C4: after the reverse pass, the stored baseline creatinine at any
TimePoint never exceeds the minimum of the valid creatinine values at or
after that TimePoint. -/
theorem C4_baseline_reverse_invariant (varList : List String)
    (hBC : "BaselineCr" ∈ varList) (tl : List TimelineEntry) (i : ℕ) (b mval : ℚ)
    (hb : (((revFold varList tl ⟨TDF_INVALID_VALUE⟩).2.get? i).bind
        (fun e => e.data "BaselineCr")) = some b)
    (hm : minValidCrFrom (tl.drop i) = some mval) :
    b ≤ mval := by
  induction tl generalizing i with
  | nil => simp [revFold] at hb
  | cons e rest ih =>
      match i with
      | Nat.succ j =>
          refine ih j ?_ hm
          simpa [revFold] using hb
      | 0 =>
          rw [List.drop_zero] at hm
          have hb0 : (calculateAllDerivedValuesREVERSEPass varList
              (revFold varList rest ⟨TDF_INVALID_VALUE⟩).1 e.data e.TimeDays).2 "BaselineCr"
              = some b := by
            simpa [revFold] using hb
          rw [rev_snap_baseline varList hBC] at hb0
          have hfut : futStep (revFold varList rest ⟨TDF_INVALID_VALUE⟩).1.FutureBaselineCr
              e.data = mval := by
            rw [revFold_future varList hBC, futStep_minValid, hm]
            rfl
          rw [hfut] at hb0
          have hmpos := minValidCrFrom_pos _ mval hm
          by_cases hcor : mval > TDF_SMALLEST_VALID_VALUE ∧ mval < e.data.getI "BaselineCr"
          · rw [if_pos hcor] at hb0
            cases hb0
            exact le_refl _
          · rw [if_neg hcor] at hb0
            have hble : e.data.getI "BaselineCr" = b := by
              rw [Snapshot.getI, hb0]
            push_neg at hcor
            have := hcor hmpos
            rw [hble] at this
            exact this

/-- Witness for C4: one TimePoint with creatinine 2 and a file-supplied
baseline 5; the reverse pass corrects the stored baseline down to 2, which
does not exceed the future minimum 2. -/
theorem C4_baseline_reverse_invariant_witness :
    ("BaselineCr" ∈ ["BaselineCr", "Cr"]) ∧
    ((((revFold ["BaselineCr", "Cr"]
        [⟨0, (Snapshot.empty.set "Cr" 2).set "BaselineCr" 5⟩]
        ⟨TDF_INVALID_VALUE⟩).2.get? 0).bind (fun e => e.data "BaselineCr")) = some 2) ∧
    (minValidCrFrom (List.drop 0
        [⟨0, (Snapshot.empty.set "Cr" 2).set "BaselineCr" 5⟩]) = some 2) ∧
    (2 : ℚ) ≤ 2 :=
  ⟨by decide,
   by norm_num +decide [revFold, calculateAllDerivedValuesREVERSEPass,
     Snapshot.set, Snapshot.getI, Snapshot.empty, TDF_INVALID_VALUE,
     TDF_SMALLEST_VALID_VALUE, List.get?, Option.bind],
   by norm_num +decide [minValidCrFrom, Snapshot.set, Snapshot.empty,
     TDF_SMALLEST_VALID_VALUE],
   C4_baseline_reverse_invariant ["BaselineCr", "Cr"] (by decide)
     [⟨0, (Snapshot.empty.set "Cr" 2).set "BaselineCr" 5⟩] 0 2 2
     (by norm_num +decide [revFold, calculateAllDerivedValuesREVERSEPass,
        Snapshot.set, Snapshot.getI, Snapshot.empty, TDF_INVALID_VALUE,
        TDF_SMALLEST_VALID_VALUE, List.get?, Option.bind])
     (by norm_num +decide [minValidCrFrom, Snapshot.set, Snapshot.empty,
        TDF_SMALLEST_VALID_VALUE])⟩

/-! ### Claim C6: stage-onset milestone tracking (second forward sweep) -/

/-- `TDF_INVALID_VALUE` as stored into the integer milestone date fields
(tdfTools.py lines 2063-2071). -/
def TDF_INVALID_DATE : ℤ := -314159

/-- The milestone onset dates tracked by the reader (the stage-date subset of
the fields initialised at tdfTools.py lines 2064-2071). -/
structure MilestoneState where
  StartMELD40Date : ℤ
  StartMELD30Date : ℤ
  StartMELD20Date : ℤ
  StartMELD10Date : ℤ
  StartCKD5Date : ℤ
  StartCKD4Date : ℤ
  StartCKD3bDate : ℤ
  StartCKD3aDate : ℤ

def initMilestoneState : MilestoneState :=
  ⟨TDF_INVALID_DATE, TDF_INVALID_DATE, TDF_INVALID_DATE, TDF_INVALID_DATE,
   TDF_INVALID_DATE, TDF_INVALID_DATE, TDF_INVALID_DATE, TDF_INVALID_DATE⟩

/-- The GFR section of RecordTimeMilestonesOnForwardPass
(tdfTools.py lines 3017-3073). -/
def recordGFRMilestones (st : MilestoneState) (timeLineData : Snapshot)
    (currentDayNum : ℤ) : MilestoneState :=
  match timeLineData "GFR" with
  | none => st
  | some currentGFR =>
      if currentGFR < TDF_SMALLEST_VALID_VALUE then st
      else if currentGFR < 15 then
        { st with
          StartCKD5Date := if st.StartCKD5Date < 0 then currentDayNum else st.StartCKD5Date
          StartCKD4Date := if st.StartCKD4Date < 0 then currentDayNum else st.StartCKD4Date
          StartCKD3bDate := if st.StartCKD3bDate < 0 then currentDayNum else st.StartCKD3bDate
          StartCKD3aDate := if st.StartCKD3aDate < 0 then currentDayNum else st.StartCKD3aDate }
      else if 15 ≤ currentGFR ∧ currentGFR < 30 then
        { st with
          StartCKD4Date := if st.StartCKD4Date < 0 then currentDayNum else st.StartCKD4Date
          StartCKD3bDate := if st.StartCKD3bDate < 0 then currentDayNum else st.StartCKD3bDate
          StartCKD3aDate := if st.StartCKD3aDate < 0 then currentDayNum else st.StartCKD3aDate
          StartCKD5Date := TDF_INVALID_DATE }
      else if 30 ≤ currentGFR ∧ currentGFR < 45 then
        { st with
          StartCKD3bDate := if st.StartCKD3bDate < 0 then currentDayNum else st.StartCKD3bDate
          StartCKD3aDate := if st.StartCKD3aDate < 0 then currentDayNum else st.StartCKD3aDate
          StartCKD4Date := TDF_INVALID_DATE
          StartCKD5Date := TDF_INVALID_DATE }
      else if 45 ≤ currentGFR ∧ currentGFR < 60 then
        { st with
          StartCKD3aDate := if st.StartCKD3aDate < 0 then currentDayNum else st.StartCKD3aDate
          StartCKD3bDate := TDF_INVALID_DATE
          StartCKD4Date := TDF_INVALID_DATE
          StartCKD5Date := TDF_INVALID_DATE }
      else if 60 ≤ currentGFR then
        { st with
          StartCKD3aDate := TDF_INVALID_DATE
          StartCKD3bDate := TDF_INVALID_DATE
          StartCKD4Date := TDF_INVALID_DATE
          StartCKD5Date := TDF_INVALID_DATE }
      else st

/-- The MELD section of RecordTimeMilestonesOnForwardPass
(tdfTools.py lines 3078-3115). -/
def recordMELDMilestones (st : MilestoneState) (timeLineData : Snapshot)
    (currentDayNum : ℤ) : MilestoneState :=
  match timeLineData "MELD" with
  | none => st
  | some currentMELD =>
      if currentMELD < TDF_SMALLEST_VALID_VALUE then st
      else if 40 ≤ currentMELD then
        { st with
          StartMELD40Date := if st.StartMELD40Date < 0 then currentDayNum else st.StartMELD40Date
          StartMELD30Date := if st.StartMELD30Date < 0 then currentDayNum else st.StartMELD30Date
          StartMELD20Date := if st.StartMELD20Date < 0 then currentDayNum else st.StartMELD20Date
          StartMELD10Date := if st.StartMELD10Date < 0 then currentDayNum else st.StartMELD10Date }
      else if 30 ≤ currentMELD ∧ currentMELD < 40 then
        { st with
          StartMELD30Date := if st.StartMELD30Date < 0 then currentDayNum else st.StartMELD30Date
          StartMELD20Date := if st.StartMELD20Date < 0 then currentDayNum else st.StartMELD20Date
          StartMELD10Date := if st.StartMELD10Date < 0 then currentDayNum else st.StartMELD10Date
          StartMELD40Date := TDF_INVALID_DATE }
      else if 20 ≤ currentMELD ∧ currentMELD < 30 then
        { st with
          StartMELD20Date := if st.StartMELD20Date < 0 then currentDayNum else st.StartMELD20Date
          StartMELD10Date := if st.StartMELD10Date < 0 then currentDayNum else st.StartMELD10Date
          StartMELD30Date := TDF_INVALID_DATE
          StartMELD40Date := TDF_INVALID_DATE }
      else if 10 ≤ currentMELD ∧ currentMELD < 20 then
        { st with
          StartMELD10Date := if st.StartMELD10Date < 0 then currentDayNum else st.StartMELD10Date
          StartMELD20Date := TDF_INVALID_DATE
          StartMELD30Date := TDF_INVALID_DATE
          StartMELD40Date := TDF_INVALID_DATE }
      else if currentMELD < 10 then
        { st with
          StartMELD10Date := TDF_INVALID_DATE
          StartMELD20Date := TDF_INVALID_DATE
          StartMELD30Date := TDF_INVALID_DATE
          StartMELD40Date := TDF_INVALID_DATE }
      else st

/-- RecordTimeMilestonesOnForwardPass: the GFR section then the MELD
section (tdfTools.py lines 3006-3116). -/
def recordTimeMilestonesOnForwardPass (st : MilestoneState)
    (timeLineData : Snapshot) (currentDayNum : ℤ) : MilestoneState :=
  recordMELDMilestones (recordGFRMilestones st timeLineData currentDayNum)
    timeLineData currentDayNum

/-- The second forward sweep (tdfTools.py lines 2252-2257): fold the
milestone recorder over the compiled timeline's (data, day) pairs. -/
def runMilestones (nodes : List (Snapshot × ℤ)) : MilestoneState :=
  nodes.foldl (fun st node => recordTimeMilestonesOnForwardPass st node.1 node.2)
    initMilestoneState

/-- The per-stage observation stream: the (score, day) pairs of the nodes
where the key is present with a non-skipped value. -/
def stageObs (key : String) (nodes : List (Snapshot × ℤ)) : List (ℚ × ℤ) :=
  nodes.filterMap (fun node =>
    match node.1 key with
    | some g => if g < TDF_SMALLEST_VALID_VALUE then none else some (g, node.2)
    | none => none)

/-- One uniform stage update: set the date if unset while the criterion
holds, clear it as soon as the criterion fails. -/
def pureStageStep (crit : ℚ → Bool) (st : ℤ) (p : ℚ × ℤ) : ℤ :=
  if crit p.1 then (if st < 0 then p.2 else st) else TDF_INVALID_DATE

/-- The longest suffix of observations all meeting the criterion. -/
def trailingRun (crit : ℚ → Bool) (obs : List (ℚ × ℤ)) : List (ℚ × ℤ) :=
  (obs.reverse.takeWhile (fun p => crit p.1)).reverse

/-- The day from which the criterion is met continuously to the end of the
record, or the invalid date if the criterion fails at the last observation. -/
def onsetOf (crit : ℚ → Bool) (obs : List (ℚ × ℤ)) : ℤ :=
  match trailingRun crit obs with
  | [] => TDF_INVALID_DATE
  | r :: _ => r.2

theorem recordGFR_none (st : MilestoneState) (snap : Snapshot) (day : ℤ)
    (h : snap "GFR" = none) : recordGFRMilestones st snap day = st := by
  simp only [recordGFRMilestones, h]

theorem recordGFR_invalid (st : MilestoneState) (snap : Snapshot) (day : ℤ)
    (g : ℚ) (h : snap "GFR" = some g) (hg : g < TDF_SMALLEST_VALID_VALUE) :
    recordGFRMilestones st snap day = st := by
  simp only [recordGFRMilestones, h]
  rw [if_pos hg]

theorem recordMELD_none (st : MilestoneState) (snap : Snapshot) (day : ℤ)
    (h : snap "MELD" = none) : recordMELDMilestones st snap day = st := by
  simp only [recordMELDMilestones, h]

theorem recordMELD_invalid (st : MilestoneState) (snap : Snapshot) (day : ℤ)
    (m : ℚ) (h : snap "MELD" = some m) (hm : m < TDF_SMALLEST_VALID_VALUE) :
    recordMELDMilestones st snap day = st := by
  simp only [recordMELDMilestones, h]
  rw [if_pos hm]

/-- The MELD section does not touch the CKD dates. -/
theorem recordMELD_frame (st : MilestoneState) (snap : Snapshot) (day : ℤ) :
    (recordMELDMilestones st snap day).StartCKD5Date = st.StartCKD5Date ∧
    (recordMELDMilestones st snap day).StartCKD4Date = st.StartCKD4Date ∧
    (recordMELDMilestones st snap day).StartCKD3bDate = st.StartCKD3bDate ∧
    (recordMELDMilestones st snap day).StartCKD3aDate = st.StartCKD3aDate := by
  rcases h : snap "MELD" with _ | m
  · simp [recordMELDMilestones, h]
  · simp only [recordMELDMilestones, h]
    split_ifs <;> exact ⟨rfl, rfl, rfl, rfl⟩

/-- The GFR section does not touch the MELD dates. -/
theorem recordGFR_frame (st : MilestoneState) (snap : Snapshot) (day : ℤ) :
    (recordGFRMilestones st snap day).StartMELD40Date = st.StartMELD40Date ∧
    (recordGFRMilestones st snap day).StartMELD30Date = st.StartMELD30Date ∧
    (recordGFRMilestones st snap day).StartMELD20Date = st.StartMELD20Date ∧
    (recordGFRMilestones st snap day).StartMELD10Date = st.StartMELD10Date := by
  rcases h : snap "GFR" with _ | g
  · simp [recordGFRMilestones, h]
  · simp only [recordGFRMilestones, h]
    split_ifs <;> exact ⟨rfl, rfl, rfl, rfl⟩

/-- On a valid GFR observation, every band of the elif chain acts on each
CKD date as the uniform set-if-unset/clear update for that stage's criterion. -/
theorem recordGFR_valid (st : MilestoneState) (snap : Snapshot) (day : ℤ)
    (g : ℚ) (h : snap "GFR" = some g) (hval : ¬ g < TDF_SMALLEST_VALID_VALUE) :
    (recordGFRMilestones st snap day).StartCKD5Date =
        pureStageStep (fun x => decide (x < 15)) st.StartCKD5Date (g, day) ∧
    (recordGFRMilestones st snap day).StartCKD4Date =
        pureStageStep (fun x => decide (x < 30)) st.StartCKD4Date (g, day) ∧
    (recordGFRMilestones st snap day).StartCKD3bDate =
        pureStageStep (fun x => decide (x < 45)) st.StartCKD3bDate (g, day) ∧
    (recordGFRMilestones st snap day).StartCKD3aDate =
        pureStageStep (fun x => decide (x < 60)) st.StartCKD3aDate (g, day) := by
  simp only [recordGFRMilestones, h, pureStageStep, decide_eq_true_eq]
  rw [if_neg hval]
  rcases lt_or_ge g 15 with h2 | h2
  · rw [if_pos h2]
    refine ⟨?_, ?_, ?_, ?_⟩
    · rw [if_pos h2] <;> rfl
    · rw [if_pos (show g < 30 by linarith)] <;> rfl
    · rw [if_pos (show g < 45 by linarith)] <;> rfl
    · rw [if_pos (show g < 60 by linarith)] <;> rfl
  · rw [if_neg (not_lt.mpr h2)]
    rcases lt_or_ge g 30 with h3 | h3
    · rw [if_pos ⟨h2, h3⟩]
      refine ⟨?_, ?_, ?_, ?_⟩
      · rw [if_neg (show ¬ g < 15 from not_lt.mpr h2)] <;> rfl
      · rw [if_pos h3] <;> rfl
      · rw [if_pos (show g < 45 by linarith)] <;> rfl
      · rw [if_pos (show g < 60 by linarith)] <;> rfl
    · rw [if_neg (fun hc => absurd hc.2 (not_lt.mpr h3))]
      rcases lt_or_ge g 45 with h4 | h4
      · rw [if_pos ⟨h3, h4⟩]
        refine ⟨?_, ?_, ?_, ?_⟩
        · rw [if_neg (show ¬ g < 15 from not_lt.mpr (by linarith))] <;> rfl
        · rw [if_neg (show ¬ g < 30 from not_lt.mpr h3)] <;> rfl
        · rw [if_pos h4] <;> rfl
        · rw [if_pos (show g < 60 by linarith)] <;> rfl
      · rw [if_neg (fun hc => absurd hc.2 (not_lt.mpr h4))]
        rcases lt_or_ge g 60 with h5 | h5
        · rw [if_pos ⟨h4, h5⟩]
          refine ⟨?_, ?_, ?_, ?_⟩
          · rw [if_neg (show ¬ g < 15 from not_lt.mpr (by linarith))] <;> rfl
          · rw [if_neg (show ¬ g < 30 from not_lt.mpr (by linarith))] <;> rfl
          · rw [if_neg (show ¬ g < 45 from not_lt.mpr h4)] <;> rfl
          · rw [if_pos h5] <;> rfl
        · rw [if_neg (fun hc => absurd hc.2 (not_lt.mpr h5)), if_pos h5]
          refine ⟨?_, ?_, ?_, ?_⟩
          · rw [if_neg (show ¬ g < 15 from not_lt.mpr (by linarith))] <;> rfl
          · rw [if_neg (show ¬ g < 30 from not_lt.mpr (by linarith))] <;> rfl
          · rw [if_neg (show ¬ g < 45 from not_lt.mpr (by linarith))] <;> rfl
          · rw [if_neg (show ¬ g < 60 from not_lt.mpr h5)] <;> rfl

/-- On a valid MELD observation, every band of the elif chain acts on each
MELD date as the uniform set-if-unset/clear update for that stage's criterion. -/
theorem recordMELD_valid (st : MilestoneState) (snap : Snapshot) (day : ℤ)
    (m : ℚ) (h : snap "MELD" = some m) (hval : ¬ m < TDF_SMALLEST_VALID_VALUE) :
    (recordMELDMilestones st snap day).StartMELD40Date =
        pureStageStep (fun x => decide (40 ≤ x)) st.StartMELD40Date (m, day) ∧
    (recordMELDMilestones st snap day).StartMELD30Date =
        pureStageStep (fun x => decide (30 ≤ x)) st.StartMELD30Date (m, day) ∧
    (recordMELDMilestones st snap day).StartMELD20Date =
        pureStageStep (fun x => decide (20 ≤ x)) st.StartMELD20Date (m, day) ∧
    (recordMELDMilestones st snap day).StartMELD10Date =
        pureStageStep (fun x => decide (10 ≤ x)) st.StartMELD10Date (m, day) := by
  simp only [recordMELDMilestones, h, pureStageStep, decide_eq_true_eq]
  rw [if_neg hval]
  rcases le_or_lt 40 m with h2 | h2
  · rw [if_pos h2]
    refine ⟨?_, ?_, ?_, ?_⟩
    · rw [if_pos h2] <;> rfl
    · rw [if_pos (show (30:ℚ) ≤ m by linarith)] <;> rfl
    · rw [if_pos (show (20:ℚ) ≤ m by linarith)] <;> rfl
    · rw [if_pos (show (10:ℚ) ≤ m by linarith)] <;> rfl
  · rw [if_neg (not_le.mpr h2)]
    rcases le_or_lt 30 m with h3 | h3
    · rw [if_pos ⟨h3, h2⟩]
      refine ⟨?_, ?_, ?_, ?_⟩
      · rw [if_neg (show ¬ (40:ℚ) ≤ m from not_le.mpr h2)] <;> rfl
      · rw [if_pos h3] <;> rfl
      · rw [if_pos (show (20:ℚ) ≤ m by linarith)] <;> rfl
      · rw [if_pos (show (10:ℚ) ≤ m by linarith)] <;> rfl
    · rw [if_neg (fun hc => absurd hc.1 (not_le.mpr h3))]
      rcases le_or_lt 20 m with h4 | h4
      · rw [if_pos ⟨h4, h3⟩]
        refine ⟨?_, ?_, ?_, ?_⟩
        · rw [if_neg (show ¬ (40:ℚ) ≤ m from not_le.mpr (by linarith))] <;> rfl
        · rw [if_neg (show ¬ (30:ℚ) ≤ m from not_le.mpr h3)] <;> rfl
        · rw [if_pos h4] <;> rfl
        · rw [if_pos (show (10:ℚ) ≤ m by linarith)] <;> rfl
      · rw [if_neg (fun hc => absurd hc.1 (not_le.mpr h4))]
        rcases le_or_lt 10 m with h5 | h5
        · rw [if_pos ⟨h5, h4⟩]
          refine ⟨?_, ?_, ?_, ?_⟩
          · rw [if_neg (show ¬ (40:ℚ) ≤ m from not_le.mpr (by linarith))] <;> rfl
          · rw [if_neg (show ¬ (30:ℚ) ≤ m from not_le.mpr (by linarith))] <;> rfl
          · rw [if_neg (show ¬ (20:ℚ) ≤ m from not_le.mpr h4)] <;> rfl
          · rw [if_pos h5] <;> rfl
        · rw [if_neg (fun hc => absurd hc.1 (not_le.mpr h5)), if_pos h5]
          refine ⟨?_, ?_, ?_, ?_⟩
          · rw [if_neg (show ¬ (40:ℚ) ≤ m from not_le.mpr (by linarith))] <;> rfl
          · rw [if_neg (show ¬ (30:ℚ) ≤ m from not_le.mpr (by linarith))] <;> rfl
          · rw [if_neg (show ¬ (20:ℚ) ≤ m from not_le.mpr (by linarith))] <;> rfl
          · rw [if_neg (show ¬ (10:ℚ) ≤ m from not_le.mpr h5)] <;> rfl

/-- Folding the milestone recorder projects, field by field, onto the pure
stage fold over that stage's observation stream. -/
theorem fold_stage_eq (key : String) (crit : ℚ → Bool)
    (getter : MilestoneState → ℤ)
    (hstep : ∀ (st : MilestoneState) (snap : Snapshot) (day : ℤ),
      getter (recordTimeMilestonesOnForwardPass st snap day) =
        match snap key with
        | some g => if g < TDF_SMALLEST_VALID_VALUE then getter st
            else pureStageStep crit (getter st) (g, day)
        | none => getter st) :
    ∀ (nodes : List (Snapshot × ℤ)) (st : MilestoneState),
      getter (nodes.foldl
          (fun s node => recordTimeMilestonesOnForwardPass s node.1 node.2) st) =
        (stageObs key nodes).foldl (pureStageStep crit) (getter st) := by
  intro nodes
  induction nodes with
  | nil => intro st; rfl
  | cons n ns ih =>
      intro st
      rw [List.foldl_cons, ih]
      rcases h : n.1 key with _ | g
      · rw [show stageObs key (n :: ns) = stageObs key ns from by
          simp [stageObs, List.filterMap_cons, h]]
        rw [hstep]
        simp only [h]
      · by_cases hg : g < TDF_SMALLEST_VALID_VALUE
        · rw [show stageObs key (n :: ns) = stageObs key ns from by
            simp [stageObs, List.filterMap_cons, h, hg]]
          rw [hstep]
          simp only [h, if_pos hg]
        · rw [show stageObs key (n :: ns) = (g, n.2) :: stageObs key ns from by
            simp [stageObs, List.filterMap_cons, h, hg]]
          rw [List.foldl_cons, hstep]
          simp only [h, if_neg hg]

/-- The pure stage fold computes the onset of the trailing criterion run. -/
theorem foldl_pureStageStep_char (crit : ℚ → Bool) (obs : List (ℚ × ℤ))
    (hdays : ∀ p ∈ obs, 0 ≤ p.2) :
    obs.foldl (pureStageStep crit) TDF_INVALID_DATE = onsetOf crit obs := by
  induction obs using List.reverseRecOn with
  | nil => rfl
  | append_singleton l x ih =>
      rw [List.foldl_append, List.foldl_cons, List.foldl_nil]
      rw [ih (fun p hp => hdays p (List.mem_append_left _ hp))]
      by_cases hx : crit x.1
      · have htr : trailingRun crit (l ++ [x]) = trailingRun crit l ++ [x] := by
          simp only [trailingRun, List.reverse_append, List.reverse_cons,
            List.reverse_nil, List.nil_append, List.singleton_append]
          rw [show List.takeWhile (fun p : ℚ × ℤ => crit p.1) (x :: l.reverse) =
              x :: List.takeWhile (fun p : ℚ × ℤ => crit p.1) l.reverse from
            List.takeWhile_cons_of_pos hx]
          rw [List.reverse_cons]
        rcases htl : trailingRun crit l with _ | ⟨r, rest⟩
        · simp only [onsetOf, htl, htr, pureStageStep, hx, List.nil_append,
            if_true]
          rw [if_pos (by norm_num [TDF_INVALID_DATE])]
        · have hrmem : r ∈ l := by
            have h1 : r ∈ trailingRun crit l := by
              rw [htl]; exact List.mem_cons_self r rest
            rw [trailingRun, List.mem_reverse] at h1
            rw [← List.mem_reverse]
            exact (List.takeWhile_prefix _).subset h1
          have hr : (0:ℤ) ≤ r.2 :=
            hdays r (List.mem_append_left _ hrmem)
          simp only [onsetOf, htl, htr, pureStageStep, hx, List.cons_append,
            if_true]
          rw [if_neg (not_lt.mpr hr)]
      · have htr : trailingRun crit (l ++ [x]) = [] := by
          simp only [trailingRun, List.reverse_append, List.reverse_cons,
            List.reverse_nil, List.nil_append, List.singleton_append]
          rw [show List.takeWhile (fun p : ℚ × ℤ => crit p.1) (x :: l.reverse) =
              [] from List.takeWhile_cons_of_neg (by simpa using hx)]
          rfl
        simp only [onsetOf, htr, pureStageStep]
        rw [if_neg hx]

/-- Every observation retained for a stage keeps its node's day number. -/
theorem stageObs_days (key : String) (nodes : List (Snapshot × ℤ))
    (hdays : ∀ p ∈ nodes, 0 ≤ p.2) :
    ∀ p ∈ stageObs key nodes, 0 ≤ p.2 := by
  intro p hp
  rw [stageObs, List.mem_filterMap] at hp
  obtain ⟨n, hn, he⟩ := hp
  rcases hk : n.1 key with _ | g
  · simp only [hk] at he
    exact Option.noConfusion he
  · simp only [hk] at he
    split_ifs at he
    injection he with he2
    subst he2
    exact hdays n hn

/-- C6: after the second forward sweep, the onset date recorded for every
CKD and MELD stage equals the first day from which that stage's criterion is
met continuously to the end of the record (the invalid date when the final
valid score fails the criterion or no valid score exists): crossing back to
a better stage clears the stale onset, and re-crossing records the new,
later day. -/
theorem C6_stage_onset_dates (nodes : List (Snapshot × ℤ))
    (hdays : ∀ p ∈ nodes, 0 ≤ p.2) :
    (runMilestones nodes).StartCKD5Date =
        onsetOf (fun x => decide (x < 15)) (stageObs "GFR" nodes) ∧
    (runMilestones nodes).StartCKD4Date =
        onsetOf (fun x => decide (x < 30)) (stageObs "GFR" nodes) ∧
    (runMilestones nodes).StartCKD3bDate =
        onsetOf (fun x => decide (x < 45)) (stageObs "GFR" nodes) ∧
    (runMilestones nodes).StartCKD3aDate =
        onsetOf (fun x => decide (x < 60)) (stageObs "GFR" nodes) ∧
    (runMilestones nodes).StartMELD40Date =
        onsetOf (fun x => decide (40 ≤ x)) (stageObs "MELD" nodes) ∧
    (runMilestones nodes).StartMELD30Date =
        onsetOf (fun x => decide (30 ≤ x)) (stageObs "MELD" nodes) ∧
    (runMilestones nodes).StartMELD20Date =
        onsetOf (fun x => decide (20 ≤ x)) (stageObs "MELD" nodes) ∧
    (runMilestones nodes).StartMELD10Date =
        onsetOf (fun x => decide (10 ≤ x)) (stageObs "MELD" nodes) := by
  have hstep5 : ∀ (st : MilestoneState) (snap : Snapshot) (day : ℤ),
      (recordTimeMilestonesOnForwardPass st snap day).StartCKD5Date =
        match snap "GFR" with
        | some g => if g < TDF_SMALLEST_VALID_VALUE then st.StartCKD5Date
            else pureStageStep (fun x => decide (x < 15)) st.StartCKD5Date (g, day)
        | none => st.StartCKD5Date := by
    intro st snap day
    rw [recordTimeMilestonesOnForwardPass, (recordMELD_frame _ snap day).1]
    rcases h : snap "GFR" with _ | g
    · simp only [recordGFR_none st snap day h, h]
    · by_cases hg : g < TDF_SMALLEST_VALID_VALUE
      · simp only [recordGFR_invalid st snap day g h hg, h, if_pos hg]
      · simp only [(recordGFR_valid st snap day g h hg).1, h, if_neg hg]
  have hstep4 : ∀ (st : MilestoneState) (snap : Snapshot) (day : ℤ),
      (recordTimeMilestonesOnForwardPass st snap day).StartCKD4Date =
        match snap "GFR" with
        | some g => if g < TDF_SMALLEST_VALID_VALUE then st.StartCKD4Date
            else pureStageStep (fun x => decide (x < 30)) st.StartCKD4Date (g, day)
        | none => st.StartCKD4Date := by
    intro st snap day
    rw [recordTimeMilestonesOnForwardPass, (recordMELD_frame _ snap day).2.1]
    rcases h : snap "GFR" with _ | g
    · simp only [recordGFR_none st snap day h, h]
    · by_cases hg : g < TDF_SMALLEST_VALID_VALUE
      · simp only [recordGFR_invalid st snap day g h hg, h, if_pos hg]
      · simp only [(recordGFR_valid st snap day g h hg).2.1, h, if_neg hg]
  have hstep3b : ∀ (st : MilestoneState) (snap : Snapshot) (day : ℤ),
      (recordTimeMilestonesOnForwardPass st snap day).StartCKD3bDate =
        match snap "GFR" with
        | some g => if g < TDF_SMALLEST_VALID_VALUE then st.StartCKD3bDate
            else pureStageStep (fun x => decide (x < 45)) st.StartCKD3bDate (g, day)
        | none => st.StartCKD3bDate := by
    intro st snap day
    rw [recordTimeMilestonesOnForwardPass, (recordMELD_frame _ snap day).2.2.1]
    rcases h : snap "GFR" with _ | g
    · simp only [recordGFR_none st snap day h, h]
    · by_cases hg : g < TDF_SMALLEST_VALID_VALUE
      · simp only [recordGFR_invalid st snap day g h hg, h, if_pos hg]
      · simp only [(recordGFR_valid st snap day g h hg).2.2.1, h, if_neg hg]
  have hstep3a : ∀ (st : MilestoneState) (snap : Snapshot) (day : ℤ),
      (recordTimeMilestonesOnForwardPass st snap day).StartCKD3aDate =
        match snap "GFR" with
        | some g => if g < TDF_SMALLEST_VALID_VALUE then st.StartCKD3aDate
            else pureStageStep (fun x => decide (x < 60)) st.StartCKD3aDate (g, day)
        | none => st.StartCKD3aDate := by
    intro st snap day
    rw [recordTimeMilestonesOnForwardPass, (recordMELD_frame _ snap day).2.2.2]
    rcases h : snap "GFR" with _ | g
    · simp only [recordGFR_none st snap day h, h]
    · by_cases hg : g < TDF_SMALLEST_VALID_VALUE
      · simp only [recordGFR_invalid st snap day g h hg, h, if_pos hg]
      · simp only [(recordGFR_valid st snap day g h hg).2.2.2, h, if_neg hg]
  have hstep40 : ∀ (st : MilestoneState) (snap : Snapshot) (day : ℤ),
      (recordTimeMilestonesOnForwardPass st snap day).StartMELD40Date =
        match snap "MELD" with
        | some m => if m < TDF_SMALLEST_VALID_VALUE then st.StartMELD40Date
            else pureStageStep (fun x => decide (40 ≤ x)) st.StartMELD40Date (m, day)
        | none => st.StartMELD40Date := by
    intro st snap day
    rw [recordTimeMilestonesOnForwardPass]
    rcases h : snap "MELD" with _ | m
    · simp only [recordMELD_none _ snap day h, (recordGFR_frame st snap day).1, h]
    · by_cases hm : m < TDF_SMALLEST_VALID_VALUE
      · simp only [recordMELD_invalid _ snap day m h hm,
          (recordGFR_frame st snap day).1, h, if_pos hm]
      · simp only [(recordMELD_valid _ snap day m h hm).1,
          (recordGFR_frame st snap day).1, h, if_neg hm]
  have hstep30 : ∀ (st : MilestoneState) (snap : Snapshot) (day : ℤ),
      (recordTimeMilestonesOnForwardPass st snap day).StartMELD30Date =
        match snap "MELD" with
        | some m => if m < TDF_SMALLEST_VALID_VALUE then st.StartMELD30Date
            else pureStageStep (fun x => decide (30 ≤ x)) st.StartMELD30Date (m, day)
        | none => st.StartMELD30Date := by
    intro st snap day
    rw [recordTimeMilestonesOnForwardPass]
    rcases h : snap "MELD" with _ | m
    · simp only [recordMELD_none _ snap day h, (recordGFR_frame st snap day).2.1, h]
    · by_cases hm : m < TDF_SMALLEST_VALID_VALUE
      · simp only [recordMELD_invalid _ snap day m h hm,
          (recordGFR_frame st snap day).2.1, h, if_pos hm]
      · simp only [(recordMELD_valid _ snap day m h hm).2.1,
          (recordGFR_frame st snap day).2.1, h, if_neg hm]
  have hstep20 : ∀ (st : MilestoneState) (snap : Snapshot) (day : ℤ),
      (recordTimeMilestonesOnForwardPass st snap day).StartMELD20Date =
        match snap "MELD" with
        | some m => if m < TDF_SMALLEST_VALID_VALUE then st.StartMELD20Date
            else pureStageStep (fun x => decide (20 ≤ x)) st.StartMELD20Date (m, day)
        | none => st.StartMELD20Date := by
    intro st snap day
    rw [recordTimeMilestonesOnForwardPass]
    rcases h : snap "MELD" with _ | m
    · simp only [recordMELD_none _ snap day h, (recordGFR_frame st snap day).2.2.1, h]
    · by_cases hm : m < TDF_SMALLEST_VALID_VALUE
      · simp only [recordMELD_invalid _ snap day m h hm,
          (recordGFR_frame st snap day).2.2.1, h, if_pos hm]
      · simp only [(recordMELD_valid _ snap day m h hm).2.2.1,
          (recordGFR_frame st snap day).2.2.1, h, if_neg hm]
  have hstep10 : ∀ (st : MilestoneState) (snap : Snapshot) (day : ℤ),
      (recordTimeMilestonesOnForwardPass st snap day).StartMELD10Date =
        match snap "MELD" with
        | some m => if m < TDF_SMALLEST_VALID_VALUE then st.StartMELD10Date
            else pureStageStep (fun x => decide (10 ≤ x)) st.StartMELD10Date (m, day)
        | none => st.StartMELD10Date := by
    intro st snap day
    rw [recordTimeMilestonesOnForwardPass]
    rcases h : snap "MELD" with _ | m
    · simp only [recordMELD_none _ snap day h, (recordGFR_frame st snap day).2.2.2, h]
    · by_cases hm : m < TDF_SMALLEST_VALID_VALUE
      · simp only [recordMELD_invalid _ snap day m h hm,
          (recordGFR_frame st snap day).2.2.2, h, if_pos hm]
      · simp only [(recordMELD_valid _ snap day m h hm).2.2.2,
          (recordGFR_frame st snap day).2.2.2, h, if_neg hm]
  refine ⟨?_, ?_, ?_, ?_, ?_, ?_, ?_, ?_⟩
  · exact (fold_stage_eq "GFR" (fun x => decide (x < 15))
      (fun s => s.StartCKD5Date) hstep5 nodes initMilestoneState).trans
      (foldl_pureStageStep_char _ _ (stageObs_days "GFR" nodes hdays))
  · exact (fold_stage_eq "GFR" (fun x => decide (x < 30))
      (fun s => s.StartCKD4Date) hstep4 nodes initMilestoneState).trans
      (foldl_pureStageStep_char _ _ (stageObs_days "GFR" nodes hdays))
  · exact (fold_stage_eq "GFR" (fun x => decide (x < 45))
      (fun s => s.StartCKD3bDate) hstep3b nodes initMilestoneState).trans
      (foldl_pureStageStep_char _ _ (stageObs_days "GFR" nodes hdays))
  · exact (fold_stage_eq "GFR" (fun x => decide (x < 60))
      (fun s => s.StartCKD3aDate) hstep3a nodes initMilestoneState).trans
      (foldl_pureStageStep_char _ _ (stageObs_days "GFR" nodes hdays))
  · exact (fold_stage_eq "MELD" (fun x => decide (40 ≤ x))
      (fun s => s.StartMELD40Date) hstep40 nodes initMilestoneState).trans
      (foldl_pureStageStep_char _ _ (stageObs_days "MELD" nodes hdays))
  · exact (fold_stage_eq "MELD" (fun x => decide (30 ≤ x))
      (fun s => s.StartMELD30Date) hstep30 nodes initMilestoneState).trans
      (foldl_pureStageStep_char _ _ (stageObs_days "MELD" nodes hdays))
  · exact (fold_stage_eq "MELD" (fun x => decide (20 ≤ x))
      (fun s => s.StartMELD20Date) hstep20 nodes initMilestoneState).trans
      (foldl_pureStageStep_char _ _ (stageObs_days "MELD" nodes hdays))
  · exact (fold_stage_eq "MELD" (fun x => decide (10 ≤ x))
      (fun s => s.StartMELD10Date) hstep10 nodes initMilestoneState).trans
      (foldl_pureStageStep_char _ _ (stageObs_days "MELD" nodes hdays))

/-- A transient CKD5 episode (GFR 10 on day 1), recovery (GFR 50 on day 2),
and a later relapse (GFR 12 on day 3). -/
def c6nodes : List (Snapshot × ℤ) :=
  [(Snapshot.empty.set "GFR" 10, 1),
   (Snapshot.empty.set "GFR" 50, 2),
   (Snapshot.empty.set "GFR" 12, 3)]

/-- Witness for C6: the premature CKD5 onset (day 1) is cleared on recovery
and re-set to the relapse day 3, while the CKD3a onset survives as day 1. -/
theorem C6_stage_onset_dates_witness :
    (∀ p ∈ c6nodes, 0 ≤ p.2) ∧
    ((runMilestones c6nodes).StartCKD5Date =
        onsetOf (fun x => decide (x < 15)) (stageObs "GFR" c6nodes) ∧
     (runMilestones c6nodes).StartCKD4Date =
        onsetOf (fun x => decide (x < 30)) (stageObs "GFR" c6nodes) ∧
     (runMilestones c6nodes).StartCKD3bDate =
        onsetOf (fun x => decide (x < 45)) (stageObs "GFR" c6nodes) ∧
     (runMilestones c6nodes).StartCKD3aDate =
        onsetOf (fun x => decide (x < 60)) (stageObs "GFR" c6nodes) ∧
     (runMilestones c6nodes).StartMELD40Date =
        onsetOf (fun x => decide (40 ≤ x)) (stageObs "MELD" c6nodes) ∧
     (runMilestones c6nodes).StartMELD30Date =
        onsetOf (fun x => decide (30 ≤ x)) (stageObs "MELD" c6nodes) ∧
     (runMilestones c6nodes).StartMELD20Date =
        onsetOf (fun x => decide (20 ≤ x)) (stageObs "MELD" c6nodes) ∧
     (runMilestones c6nodes).StartMELD10Date =
        onsetOf (fun x => decide (10 ≤ x)) (stageObs "MELD" c6nodes)) :=
  ⟨by decide, C6_stage_onset_dates c6nodes (by decide)⟩

/-! ### Claim C8: EvaluateFilter (CheckIfCurrentTimeMeetsCriteria) -/

/-- Python `int()` truncation toward zero. -/
def pyInt (q : ℚ) : ℤ := if 0 ≤ q then ⌊q⌋ else ⌈q⌉

/-- One predicate test of CheckIfCurrentTimeMeetsCriteria
(tdfTools.py lines 4027-4100), for one (relation, name, target) triple:
absent or invalid values fail, unknown lab names fail, then the relation
chain returns False on the disqualifying comparison for the variable's
data type. -/
def checkOneCriterion (latestValues : Snapshot) (prop : String × String × ℚ) :
    Bool :=
  let relationName := prop.1
  let valueName := prop.2.1
  let targetVal := prop.2.2
  match latestValues valueName with
  | none => false
  | some actualVal =>
      if actualVal = TDF_INVALID_VALUE ∨ actualVal ≤ TDF_SMALLEST_VALID_VALUE
      then false
      else
        match g_LabValueInfo valueName with
        | none => false
        | some labInfo =>
            let dataTypeName := labInfo.dataType
            if relationName = ".EQ." then
              if dataTypeName = TDF_DATA_TYPE_FLOAT ∧ actualVal ≠ targetVal then false
              else if (dataTypeName = TDF_DATA_TYPE_INT ∨
                  dataTypeName = TDF_DATA_TYPE_FUTURE_EVENT_CLASS) ∧
                  pyInt actualVal ≠ pyInt targetVal then false
              else if dataTypeName = TDF_DATA_TYPE_BOOL ∧
                  pyInt actualVal ≠ pyInt targetVal then false
              else true
            else if relationName = ".NEQ." then
              if dataTypeName = TDF_DATA_TYPE_FLOAT ∧ actualVal = targetVal then false
              else if (dataTypeName = TDF_DATA_TYPE_INT ∨
                  dataTypeName = TDF_DATA_TYPE_FUTURE_EVENT_CLASS) ∧
                  pyInt actualVal = pyInt targetVal then false
              else true
            else if relationName = ".LT." then
              if dataTypeName = TDF_DATA_TYPE_FLOAT ∧ actualVal ≥ targetVal then false
              else if (dataTypeName = TDF_DATA_TYPE_INT ∨
                  dataTypeName = TDF_DATA_TYPE_FUTURE_EVENT_CLASS) ∧
                  pyInt actualVal ≥ pyInt targetVal then false
              else true
            else if relationName = ".LTE." then
              if dataTypeName = TDF_DATA_TYPE_FLOAT ∧ actualVal > targetVal then false
              else if (dataTypeName = TDF_DATA_TYPE_INT ∨
                  dataTypeName = TDF_DATA_TYPE_FUTURE_EVENT_CLASS) ∧
                  pyInt actualVal > pyInt targetVal then false
              else true
            else if relationName = ".GT." then
              if dataTypeName = TDF_DATA_TYPE_FLOAT ∧ actualVal ≤ targetVal then false
              else if (dataTypeName = TDF_DATA_TYPE_INT ∨
                  dataTypeName = TDF_DATA_TYPE_FUTURE_EVENT_CLASS) ∧
                  pyInt actualVal ≤ pyInt targetVal then false
              else true
            else if relationName = ".GTE." then
              if dataTypeName = TDF_DATA_TYPE_FLOAT ∧ actualVal < targetVal then false
              else if (dataTypeName = TDF_DATA_TYPE_INT ∨
                  dataTypeName = TDF_DATA_TYPE_FUTURE_EVENT_CLASS) ∧
                  pyInt actualVal < pyInt targetVal then false
              else true
            else false

/-- CheckIfCurrentTimeMeetsCriteria: the conjunction over all predicate
triples, evaluated on the TimePoint's data snapshot. -/
def checkIfCurrentTimeMeetsCriteria (props : List (String × String × ℚ))
    (timelineEntry : TimelineEntry) : Bool :=
  props.all (checkOneCriterion timelineEntry.data)

/-- The six relational tests as the claim states them. -/
def specRelationHolds (relationName : String) (a t : ℚ) : Bool :=
  if relationName = ".EQ." then decide (a = t)
  else if relationName = ".NEQ." then decide (a ≠ t)
  else if relationName = ".LT." then decide (a < t)
  else if relationName = ".LTE." then decide (a ≤ t)
  else if relationName = ".GT." then decide (t < a)
  else if relationName = ".GTE." then decide (t ≤ a)
  else false

/-- The claim's per-variable test: the declared relational test holds for
the snapshot value, compared numerically or as a boolean (0/1 integers)
according to the declared data kind; absent or invalid operands fail. -/
def specCriterionHolds (latestValues : Snapshot) (prop : String × String × ℚ) :
    Bool :=
  match latestValues prop.2.1 with
  | none => false
  | some a =>
      if a = TDF_INVALID_VALUE ∨ a ≤ TDF_SMALLEST_VALID_VALUE then false
      else
        match g_LabValueInfo prop.2.1 with
        | none => false
        | some info =>
            if info.dataType = TDF_DATA_TYPE_BOOL then
              specRelationHolds prop.1 ((pyInt a : ℤ) : ℚ) ((pyInt prop.2.2 : ℤ) : ℚ)
            else if info.dataType = TDF_DATA_TYPE_INT ∨
                info.dataType = TDF_DATA_TYPE_FUTURE_EVENT_CLASS then
              specRelationHolds prop.1 ((pyInt a : ℤ) : ℚ) ((pyInt prop.2.2 : ℤ) : ℚ)
            else specRelationHolds prop.1 a prop.2.2

/-- What one predicate test actually requires: present, valid, known lab,
known relation, the numeric test for FLOAT, the truncated-integer test for
INT and FUTURE_EVENT_CLASS kinds, and for BOOL variables only an `.EQ.`
test; every other relation on a BOOL variable passes vacuously. -/
def codeCriterionChar (latestValues : Snapshot) (prop : String × String × ℚ) :
    Prop :=
  match latestValues prop.2.1, g_LabValueInfo prop.2.1 with
  | some a, some info =>
      a ≠ TDF_INVALID_VALUE ∧ TDF_SMALLEST_VALID_VALUE < a ∧
      prop.1 ∈ [".EQ.", ".NEQ.", ".LT.", ".LTE.", ".GT.", ".GTE."] ∧
      (info.dataType = TDF_DATA_TYPE_FLOAT →
        specRelationHolds prop.1 a prop.2.2 = true) ∧
      ((info.dataType = TDF_DATA_TYPE_INT ∨
          info.dataType = TDF_DATA_TYPE_FUTURE_EVENT_CLASS) →
        specRelationHolds prop.1 ((pyInt a : ℤ) : ℚ) ((pyInt prop.2.2 : ℤ) : ℚ) = true) ∧
      (info.dataType = TDF_DATA_TYPE_BOOL → prop.1 = ".EQ." →
        pyInt a = pyInt prop.2.2)
  | _, _ => False

/-- A false-if chain equals true exactly when the guard fails and the rest
equals true. -/
theorem ite_false_chain (c : Prop) [Decidable c] (b : Bool) :
    ((if c then false else b) = true) ↔ (¬ c ∧ b = true) := by
  split_ifs with hc <;> simp [hc]

theorem checkOne_iff (latestValues : Snapshot) (prop : String × String × ℚ) :
    checkOneCriterion latestValues prop = true ↔
      codeCriterionChar latestValues prop := by
  obtain ⟨rel, name, target⟩ := prop
  rcases h : latestValues name with _ | a
  · simp only [checkOneCriterion, codeCriterionChar, h]
    simp
  · rcases hinfo : g_LabValueInfo name with _ | info
    · simp only [checkOneCriterion, codeCriterionChar, h, hinfo]
      simp
    · simp only [checkOneCriterion, codeCriterionChar, h, hinfo]
      by_cases hval : a = TDF_INVALID_VALUE ∨ a ≤ TDF_SMALLEST_VALID_VALUE
      · rw [if_pos hval]
        constructor
        · intro hC
          exact absurd hC (by simp)
        · rintro ⟨h1, h2, -⟩
          rcases hval with hval | hval
          · exact absurd hval h1
          · exact absurd h2 (not_lt.mpr hval)
      · rw [if_neg hval]
        push_neg at hval
        obtain ⟨hv1, hv2⟩ := hval
        by_cases h1 : rel = ".EQ."
        · subst h1
          simp +decide [specRelationHolds, ite_false_chain, not_and, not_or,
            not_le, not_lt, hv1, hv2, Int.cast_lt, Int.cast_le, Int.cast_inj]
          tauto
        · by_cases h2 : rel = ".NEQ."
          · subst h2
            simp +decide [specRelationHolds, ite_false_chain, not_and, not_or,
              not_le, not_lt, hv1, hv2, Int.cast_lt, Int.cast_le, Int.cast_inj, h1]
            tauto
          · by_cases h3 : rel = ".LT."
            · subst h3
              simp +decide [specRelationHolds, ite_false_chain, not_and, not_or,
                not_le, not_lt, hv1, hv2, Int.cast_lt, Int.cast_le, Int.cast_inj,
                h1, h2]
              tauto
            · by_cases h4 : rel = ".LTE."
              · subst h4
                simp +decide [specRelationHolds, ite_false_chain, not_and, not_or,
                  not_le, not_lt, hv1, hv2, Int.cast_lt, Int.cast_le, Int.cast_inj,
                  h1, h2, h3]
                tauto
              · by_cases h5 : rel = ".GT."
                · subst h5
                  simp +decide [specRelationHolds, ite_false_chain, not_and, not_or,
                    not_le, not_lt, hv1, hv2, Int.cast_lt, Int.cast_le, Int.cast_inj,
                    h1, h2, h3, h4]
                  tauto
                · by_cases h6 : rel = ".GTE."
                  · subst h6
                    simp +decide [specRelationHolds, ite_false_chain, not_and, not_or,
                      not_le, not_lt, hv1, hv2, Int.cast_lt, Int.cast_le, Int.cast_inj,
                      h1, h2, h3, h4, h5]
                    tauto
                  · simp [h1, h2, h3, h4, h5, h6]

/-- C8 counterexample: on a BOOL variable every relation other than `.EQ.`
passes vacuously.  With InAKI = 1 stored and the predicate
`InAKI .NEQ. 1`, the filter returns true although the claimed per-variable
test (1 ≠ 1) fails. -/
theorem C8_bool_relation_counterexample :
    checkIfCurrentTimeMeetsCriteria [(".NEQ.", "InAKI", 1)]
        ⟨0, Snapshot.empty.set "InAKI" 1⟩ = true ∧
    specCriterionHolds (Snapshot.empty.set "InAKI" 1) (".NEQ.", "InAKI", 1)
      = false := by
  constructor <;>
    norm_num +decide [checkIfCurrentTimeMeetsCriteria, checkOneCriterion,
      specCriterionHolds, specRelationHolds, pyInt, g_LabValueInfo,
      Snapshot.set, Snapshot.empty, TDF_INVALID_VALUE,
      TDF_SMALLEST_VALID_VALUE, TDF_DATA_TYPE_BOOL, TDF_DATA_TYPE_INT,
      TDF_DATA_TYPE_FLOAT, TDF_DATA_TYPE_FUTURE_EVENT_CLASS, List.all]

/-- C8 amended: the filter returns true iff every predicate triple names a
present, valid, known variable with a known relation, and the relational
test holds — numerically for FLOAT, on truncated integers for INT and
FUTURE_EVENT_CLASS, while a BOOL variable is only constrained by `.EQ.`
(all other relations on a BOOL pass vacuously). -/
theorem C8_filter_amended (props : List (String × String × ℚ))
    (entry : TimelineEntry) :
    checkIfCurrentTimeMeetsCriteria props entry = true ↔
      ∀ prop ∈ props, codeCriterionChar entry.data prop := by
  rw [checkIfCurrentTimeMeetsCriteria, List.all_eq_true]
  constructor
  · intro hA prop hp
    exact (checkOne_iff entry.data prop).mp (hA prop hp)
  · intro hA prop hp
    exact (checkOne_iff entry.data prop).mpr (hA prop hp)

/-! ### Claims C1 and C10: GetNamedValueFromTimeline -/

def VARIABLE_RANGE_SIMPLE : ℤ := -1

def VARIABLE_RANGE_LAST_MATCH : ℤ := 1

/-- Cursor positioning, forward search with firstDayInRange at or after the
current day (tdfTools.py lines 3899-3906): advance while before the range
start and not at the last index. `cnt` counts the remaining iterations of
`while currentTimeLineIndex < LastTimeLineIndex`. -/
def positionFwdAfter (firstDay : ℤ) (tl : List TimelineEntry) :
    ℕ → ℕ → Except String ℕ
  | 0, i => Except.ok i
  | Nat.succ cnt, i =>
      match tl.get? i with
      | none => Except.error "IndexError"
      | some entry =>
          if entry.TimeDays ≥ firstDay then Except.ok i
          else positionFwdAfter firstDay tl cnt (i + 1)

/-- Cursor positioning, forward search with firstDayInRange at or before
the current day (lines 3907-3916): walk `testIndex` down while the day is
still in range, remembering the last in-range index. -/
def positionFwdBefore (firstDay : ℤ) (tl : List TimelineEntry) :
    ℕ → ℕ → Except String ℕ
  | t, cur =>
      match tl.get? t with
      | none => Except.error "IndexError"
      | some entry =>
          if entry.TimeDays < firstDay then Except.ok cur
          else
            match t with
            | 0 => Except.ok 0
            | Nat.succ j => positionFwdBefore firstDay tl j t

/-- Cursor positioning, backward search with firstDayInRange after the
current day (lines 3917-3926): walk `testIndex` up while the day is still
in range, remembering the last in-range index. -/
def positionBackAfter (firstDay : ℤ) (tl : List TimelineEntry) :
    ℕ → ℕ → ℕ → Except String ℕ
  | 0, _, cur => Except.ok cur
  | Nat.succ cnt, t, cur =>
      match tl.get? t with
      | none => Except.error "IndexError"
      | some entry =>
          if entry.TimeDays > firstDay then Except.ok cur
          else positionBackAfter firstDay tl cnt (t + 1) t

/-- Cursor positioning, backward search with firstDayInRange before the
current day (lines 3927-3933): walk down until at or before the range
start; `none` models the cursor running past index 0 (Python index -1). -/
def positionBackBefore (firstDay : ℤ) (tl : List TimelineEntry) :
    ℕ → Except String (Option ℕ)
  | 0 =>
      match tl.get? 0 with
      | none => Except.error "IndexError"
      | some entry =>
          if entry.TimeDays ≤ firstDay then Except.ok (some 0)
          else Except.ok none
  | Nat.succ j =>
      match tl.get? (j + 1) with
      | none => Except.error "IndexError"
      | some entry =>
          if entry.TimeDays ≤ firstDay then Except.ok (some (j + 1))
          else positionBackBefore firstDay tl j

/-- The backward search loop (lines 3949-3974), carrying the running
`result` (which the fallen-through function output may already occupy). -/
def searchBackward (valueName : String) (lastDay : ℤ) (tl : List TimelineEntry) :
    ℕ → ℚ → Except String (Bool × ℚ × ℤ)
  | i, result =>
      match tl.get? i with
      | none => Except.error "IndexError"
      | some entry =>
          if entry.TimeDays < lastDay then Except.ok (false, result, -1)
          else
            let pr :=
              match entry.data valueName with
              | some v => (decide (v ≠ TDF_INVALID_VALUE), v)
              | none => (false, result)
            if pr.1 then Except.ok (true, pr.2, entry.TimeDays)
            else
              match i with
              | 0 => Except.ok (false, pr.2, -1)
              | Nat.succ j => searchBackward valueName lastDay tl j pr.2

/-- The forward search loop (lines 3979-4003); `cnt` counts the remaining
iterations of `while currentTimeLineIndex <= LastTimeLineIndex`. -/
def searchForward (valueName : String) (lastDay : ℤ) (tl : List TimelineEntry) :
    ℕ → ℕ → ℚ → Except String (Bool × ℚ × ℤ)
  | 0, _, result => Except.ok (false, result, -1)
  | Nat.succ cnt, i, result =>
      match tl.get? i with
      | none => Except.error "IndexError"
      | some entry =>
          if entry.TimeDays > lastDay then Except.ok (false, result, -1)
          else
            let pr :=
              match entry.data valueName with
              | some v => (decide (v ≠ TDF_INVALID_VALUE), v)
              | none => (false, result)
            if pr.1 then Except.ok (true, pr.2, entry.TimeDays)
            else searchForward valueName lastDay tl cnt (i + 1) pr.2

/-- The range part of GetNamedValueFromTimeline (lines 3862-4005), entered
with `result` holding TDF_INVALID_VALUE or a fallen-through function
output.  When no cursor-positioning branch applies, the search loop reads
the never-assigned cursor variable: UnboundLocalError. -/
def getNamedValueRangePart (valueName : String)
    (startOffsetRange endOffsetRange rangeOption : ℤ)
    (tl : List TimelineEntry) (timeLineIndex : ℕ) (prevUsedRangeDay : ℤ)
    (currentDayNum : ℤ) (result : ℚ) : Except String (Bool × ℚ × ℤ) :=
  let referenceDay :=
    if rangeOption = VARIABLE_RANGE_LAST_MATCH then prevUsedRangeDay
    else currentDayNum
  let firstDayInRange := referenceDay + startOffsetRange
  let lastDayNumInRange := referenceDay + endOffsetRange
  let fSearchForward := ¬ firstDayInRange > lastDayNumInRange
  if fSearchForward ∧ firstDayInRange ≥ currentDayNum then
    (positionFwdAfter firstDayInRange tl (tl.length - 1 - timeLineIndex)
        timeLineIndex).bind
      (fun idx => searchForward valueName lastDayNumInRange tl
        (tl.length - idx) idx result)
  else if fSearchForward ∧ firstDayInRange ≤ currentDayNum then
    (positionFwdBefore firstDayInRange tl timeLineIndex timeLineIndex).bind
      (fun idx => searchForward valueName lastDayNumInRange tl
        (tl.length - idx) idx result)
  else if (¬ fSearchForward) ∧ firstDayInRange > currentDayNum then
    (positionBackAfter firstDayInRange tl (tl.length - 1 - timeLineIndex)
        timeLineIndex timeLineIndex).bind
      (fun idx => searchBackward valueName lastDayNumInRange tl idx result)
  else if (¬ fSearchForward) ∧ firstDayInRange < currentDayNum then
    (positionBackBefore firstDayInRange tl timeLineIndex).bind
      (fun o =>
        match o with
        | none => Except.ok (false, result, -1)
        | some idx => searchBackward valueName lastDayNumInRange tl idx result)
  else
    Except.error "UnboundLocalError"

/-- GetNamedValueFromTimeline (tdfTools.py lines 3796-4005).  The function
object is ComputeNewValue specialised to a map from (value, dayNum) to the
new value (timeMin is always passed as 0).  In the easy case a valid
function output does NOT return: it falls through into the range search
with the offsets. -/
def GetNamedValueFromTimeline (valueName : String)
    (startOffsetRange endOffsetRange rangeOption : ℤ)
    (functionObject : Option (ℚ → ℤ → ℚ))
    (tl : List TimelineEntry) (timeLineIndex : ℕ) (prevUsedRangeDay : ℤ) :
    Except String (Bool × ℚ × ℤ) :=
  match tl.get? timeLineIndex with
  | none => Except.error "IndexError"
  | some timelineEntry =>
      let currentDayNum := timelineEntry.TimeDays
      if (startOffsetRange = 0 ∧ endOffsetRange = 0) ∨ functionObject.isSome
      then
        match timelineEntry.data valueName with
        | none => Except.ok (false, TDF_INVALID_VALUE, -1)
        | some r0 =>
            if r0 < TDF_SMALLEST_VALID_VALUE then
              Except.ok (false, TDF_INVALID_VALUE, -1)
            else
              match functionObject with
              | none => Except.ok (true, r0, currentDayNum)
              | some f =>
                  let r1 := f r0 currentDayNum
                  if r1 < TDF_SMALLEST_VALID_VALUE then
                    Except.ok (false, TDF_INVALID_VALUE, -1)
                  else
                    getNamedValueRangePart valueName startOffsetRange
                      endOffsetRange rangeOption tl timeLineIndex
                      prevUsedRangeDay currentDayNum r1
      else
        getNamedValueRangePart valueName startOffsetRange endOffsetRange
          rangeOption tl timeLineIndex prevUsedRangeDay currentDayNum
          TDF_INVALID_VALUE

/-- C1: with a function object and offsets (0,0) on a timeline holding
Cr = 2 at day 5, the function is fed the same-day raw value but its output
(here the constant 42, valid) is then overwritten by the range search,
which re-finds the raw stored value: the call returns (True, 2, 5), not
the function output 42.  The missing early return after a valid function
output (lines 3852-3858 fall through past line 3861) discards the
computed value. -/
theorem C1_function_output_discarded :
    GetNamedValueFromTimeline "Cr" 0 0 VARIABLE_RANGE_SIMPLE
        (some (fun _ _ => 42)) [⟨5, Snapshot.empty.set "Cr" 2⟩] 0 0 =
      Except.ok (true, 2, 5) ∧ (42 : ℚ) ≠ 2 := by
  constructor
  · norm_num +decide [GetNamedValueFromTimeline, getNamedValueRangePart,
      positionFwdAfter, searchForward, Snapshot.set, Snapshot.empty,
      TDF_INVALID_VALUE, TDF_SMALLEST_VALID_VALUE, VARIABLE_RANGE_SIMPLE,
      VARIABLE_RANGE_LAST_MATCH, Except.bind]
  · norm_num

/-- C10: a backward range (start offset greater than end offset) whose
resolved window-start day equals the current TimePoint's day falls through
all four cursor-positioning branches, so the backward search reads the
timeline cursor before any assignment: UnboundLocalError. -/
theorem C10_backward_equal_day_unbound (valueName : String)
    (s e rangeOption prev : ℤ) (tl : List TimelineEntry) (i : ℕ)
    (entry : TimelineEntry) (hget : tl.get? i = some entry) (hback : s > e)
    (hfirst : (if rangeOption = VARIABLE_RANGE_LAST_MATCH then prev
        else entry.TimeDays) + s = entry.TimeDays) :
    GetNamedValueFromTimeline valueName s e rangeOption none tl i prev =
      Except.error "UnboundLocalError" := by
  simp only [GetNamedValueFromTimeline, hget, Option.isSome_none]
  rw [if_neg (by
    rintro (⟨hs, he⟩ | hsome)
    · rw [hs, he] at hback
      exact absurd hback (lt_irrefl 0)
    · simp at hsome)]
  simp only [getNamedValueRangePart]
  set R : ℤ := if rangeOption = VARIABLE_RANGE_LAST_MATCH then prev
    else entry.TimeDays with hR
  rw [if_neg (by
    rintro ⟨hfwd, -⟩
    exact hfwd (by omega))]
  rw [if_neg (by
    rintro ⟨hfwd, -⟩
    exact hfwd (by omega))]
  rw [if_neg (by
    rintro ⟨-, hgt⟩
    omega)]
  rw [if_neg (by
    rintro ⟨-, hlt⟩
    omega)]

/-- Witness for C10: Cr[0:-3] in Nearest mode (rangeOption SIMPLE) at the
only TimePoint of a one-entry timeline. -/
theorem C10_backward_equal_day_unbound_witness :
    (([⟨5, Snapshot.empty⟩] : List TimelineEntry).get? 0 =
        some ⟨5, Snapshot.empty⟩) ∧
    ((0:ℤ) > -3) ∧
    ((if VARIABLE_RANGE_SIMPLE = VARIABLE_RANGE_LAST_MATCH then (0:ℤ)
        else (⟨5, Snapshot.empty⟩ : TimelineEntry).TimeDays) + 0 =
      (⟨5, Snapshot.empty⟩ : TimelineEntry).TimeDays) ∧
    GetNamedValueFromTimeline "Cr" 0 (-3) VARIABLE_RANGE_SIMPLE none
        [⟨5, Snapshot.empty⟩] 0 0 = Except.error "UnboundLocalError" :=
  ⟨rfl, by decide,
   by norm_num +decide [VARIABLE_RANGE_SIMPLE, VARIABLE_RANGE_LAST_MATCH],
   C10_backward_equal_day_unbound "Cr" 0 (-3) VARIABLE_RANGE_SIMPLE 0
     [⟨5, Snapshot.empty⟩] 0 ⟨5, Snapshot.empty⟩ rfl (by decide)
     (by norm_num +decide [VARIABLE_RANGE_SIMPLE, VARIABLE_RANGE_LAST_MATCH])⟩

/-! ### Claim C3: partitioned timeline scanning -/

/-- readline iterated: split a character stream into lines, each keeping
its trailing newline (the final line may lack one). -/
def linesOf : List Char → List (List Char)
  | [] => []
  | c :: rest =>
      if c = '\n' then [c] :: linesOf rest
      else
        match linesOf rest with
        | [] => [[c]]
        | l :: ls => (c :: l) :: ls

/-- Pair each line with its byte position, starting at `p` (the value of
`fileHandle.tell()` when the line is read). -/
def withPos (p : ℕ) : List (List Char) → List (ℕ × List Char)
  | [] => []
  | l :: ls => (p, l) :: withPos (p + l.length) ls

/-- `re.compile('<TL', re.IGNORECASE).match(line)`: anchored at the line
start, no stripping. -/
def matchOpen (l : List Char) : Bool :=
  match l with
  | c1 :: c2 :: c3 :: _ =>
      decide (c1 = '<' ∧ (c2 = 'T' ∨ c2 = 't') ∧ (c3 = 'L' ∨ c3 = 'l'))
  | _ => false

/-- `re.compile('</TL>', re.IGNORECASE).match(line)`. -/
def matchClose (l : List Char) : Bool :=
  match l with
  | c1 :: c2 :: c3 :: c4 :: c5 :: _ =>
      decide (c1 = '<' ∧ c2 = '/' ∧ (c3 = 'T' ∨ c3 = 't') ∧
        (c4 = 'L' ∨ c4 = 'l') ∧ c5 = '>')
  | _ => false

/-- The FindAllTimelinesInPartition loop (tdfTools.py lines 1875-1935)
over the remaining (position, line) list.  The state holds the pending
open-element position;  when no open is pending and the position has
reached a positive stopPartition, the loop breaks;  an open line arms the
state, a close line emits (openPos, closeLinePos + closeLineLen). -/
def scanLines (stop : ℕ) : List (ℕ × List Char) → Option ℕ → List (ℕ × ℕ)
  | [], _ => []
  | (p, l) :: rest, none =>
      if 0 < stop ∧ stop ≤ p then []
      else if matchOpen l then scanLines stop rest (some p)
      else scanLines stop rest none
  | (p, l) :: rest, some op =>
      if matchClose l then (op, p + l.length) :: scanLines stop rest none
      else scanLines stop rest (some op)

/-- FindAllTimelinesInPartition (tdfTools.py lines 1857-1937): seek to
startPartition (an arbitrary byte offset, possibly mid-line), then run the
scan loop; the whole-file scan is the call with partition (0, 0). -/
def FindAllTimelinesInPartition (f : List Char)
    (startPartition stopPartition : ℕ) : List (ℕ × ℕ) :=
  scanLines stopPartition
    (withPos startPartition (linesOf (f.drop startPartition))) none

/-- C3 counterexample: the 11-byte file "x<TL\n</TL>\n" split into the
contiguous covering partitions [0,1) and [1,11).  The whole-file scan
finds no timeline (no line begins with an open tag), but partition [1,11)
seeks into the middle of the first line, so its first readline yields
"<TL\n", a spurious anchored open-tag match: the concatenated partition
results contain a fragment the unpartitioned scan does not. -/
theorem C3_partition_counterexample :
    ("x<TL\n</TL>\n".toList.length = 11) ∧
    (FindAllTimelinesInPartition "x<TL\n</TL>\n".toList 0 1 ++
      FindAllTimelinesInPartition "x<TL\n</TL>\n".toList 1 11 = [(1, 11)]) ∧
    (FindAllTimelinesInPartition "x<TL\n</TL>\n".toList 0 0 = []) ∧
    ([(1, 11)] : List (ℕ × ℕ)) ≠ [] := by
  refine ⟨by decide, by decide, by decide, by decide⟩

/-- A line that the scanner reacts to. -/
def isTag (pl : ℕ × List Char) : Bool := matchOpen pl.2 || matchClose pl.2

/-- The tag lines of a positioned line list. -/
def tags (LS : List (ℕ × List Char)) : List (ℕ × List Char) := LS.filter isTag

/-- A well-formed tag sequence: strictly alternating open/close pairs. -/
def pairsOfTags :
    List (ℕ × List Char) → Option (List ((ℕ × List Char) × (ℕ × List Char)))
  | [] => some []
  | [_] => none
  | o :: c :: rest =>
      if matchOpen o.2 && matchClose c.2 then
        (pairsOfTags rest).map (fun prs => (o, c) :: prs)
      else none

/-- A tag sequence as seen from inside an element: ignorable leading
closes, then alternating pairs. -/
def pairsAfterCloses :
    List (ℕ × List Char) → Option (List ((ℕ × List Char) × (ℕ × List Char)))
  | [] => some []
  | t :: rest =>
      if matchClose t.2 then pairsAfterCloses rest else pairsOfTags (t :: rest)

/-- The scanner's output for one matched pair. -/
def emit (pr : (ℕ × List Char) × (ℕ × List Char)) : ℕ × ℕ :=
  (pr.1.1, pr.2.1 + pr.2.2.length)

theorem open_close_disjoint (l : List Char) (ho : matchOpen l = true)
    (hc : matchClose l = true) : False := by
  rcases l with _ | ⟨c1, l⟩
  · simp [matchOpen] at ho
  rcases l with _ | ⟨c2, l⟩
  · simp [matchOpen] at ho
  rcases l with _ | ⟨c3, l⟩
  · simp [matchOpen] at ho
  rcases l with _ | ⟨c4, l⟩
  · simp [matchClose] at hc
  rcases l with _ | ⟨c5, l⟩
  · simp [matchClose] at hc
  simp only [matchOpen, matchClose, decide_eq_true_eq] at ho hc
  obtain ⟨-, hT, -⟩ := ho
  obtain ⟨-, hs, -⟩ := hc
  rcases hT with h | h <;> rw [h] at hs <;> exact absurd hs (by decide)

theorem pairsOfTags_mem : ∀ (ts : List (ℕ × List Char)) (prs)
    (_ : pairsOfTags ts = some prs) (pr) (_ : pr ∈ prs),
    (pr.1 ∈ ts ∧ matchOpen pr.1.2 = true) ∧
    (pr.2 ∈ ts ∧ matchClose pr.2.2 = true)
  | [], prs, h, pr, hm => by
      simp only [pairsOfTags, Option.some.injEq] at h
      subst h
      simp at hm
  | [t], prs, h, pr, hm => by
      simp [pairsOfTags] at h
  | o :: c :: rest, prs, h, pr, hm => by
      rw [pairsOfTags] at h
      rcases hrest : pairsOfTags rest with _ | prs'
      · rw [hrest] at h
        split_ifs at h <;> simp at h
      · rw [hrest] at h
        split_ifs at h with hb
        · simp only [Option.map_some', Option.some.injEq] at h
          subst h
          rw [Bool.and_eq_true] at hb
          rw [List.mem_cons] at hm
          rcases hm with hm | hm
          · subst hm
            exact ⟨⟨List.mem_cons_self _ _, hb.1⟩,
              ⟨List.mem_cons_of_mem _ (List.mem_cons_self _ _), hb.2⟩⟩
          · obtain ⟨⟨h1, h2⟩, h3, h4⟩ := pairsOfTags_mem rest prs' hrest pr hm
            exact ⟨⟨List.mem_cons_of_mem _ (List.mem_cons_of_mem _ h1), h2⟩,
              ⟨List.mem_cons_of_mem _ (List.mem_cons_of_mem _ h3), h4⟩⟩

theorem pairsOfTags_pairsAfterCloses (ts : List (ℕ × List Char)) (prs)
    (h : pairsOfTags ts = some prs) : pairsAfterCloses ts = some prs := by
  rcases ts with _ | ⟨t, rest⟩
  · exact h
  · rw [pairsAfterCloses]
    rcases rest with _ | ⟨c, rest'⟩
    · simp [pairsOfTags] at h
    · rw [pairsOfTags] at h
      split_ifs at h with hb
      · rw [if_neg]
        · rw [pairsOfTags]
          rw [if_pos hb]
          exact h
        · rw [Bool.and_eq_true] at hb
          intro hcl
          exact open_close_disjoint t.2 hb.1 hcl

theorem pairsAfterCloses_mem : ∀ (ts : List (ℕ × List Char)) (prs)
    (_ : pairsAfterCloses ts = some prs) (pr) (_ : pr ∈ prs),
    pr.1 ∈ ts ∧ pr.2 ∈ ts
  | [], prs, h, pr, hm => by
      simp only [pairsAfterCloses, Option.some.injEq] at h
      subst h
      simp at hm
  | t :: rest, prs, h, pr, hm => by
      rw [pairsAfterCloses] at h
      split_ifs at h with hcl
      · obtain ⟨h1, h2⟩ := pairsAfterCloses_mem rest prs h pr hm
        exact ⟨List.mem_cons_of_mem _ h1, List.mem_cons_of_mem _ h2⟩
      · obtain ⟨⟨h1, -⟩, h2, -⟩ := pairsOfTags_mem (t :: rest) prs h pr hm
        exact ⟨h1, h2⟩

theorem filterMap_stop_cons (stop : ℕ) (pr) (prs : List ((ℕ × List Char) × (ℕ × List Char)))
    (h : stop = 0 ∨ pr.1.1 < stop) :
    (pr :: prs).filterMap
        (fun q => if stop = 0 ∨ q.1.1 < stop then some (emit q) else none) =
      emit pr :: prs.filterMap
        (fun q => if stop = 0 ∨ q.1.1 < stop then some (emit q) else none) := by
  simp only [List.filterMap_cons]
  rw [if_pos h]

theorem filterMap_stop_nil (stop : ℕ)
    (prs : List ((ℕ × List Char) × (ℕ × List Char)))
    (h : ∀ pr ∈ prs, ¬ (stop = 0 ∨ pr.1.1 < stop)) :
    prs.filterMap
        (fun q => if stop = 0 ∨ q.1.1 < stop then some (emit q) else none) = [] := by
  induction prs with
  | nil => rfl
  | cons pr rest ih =>
      simp only [List.filterMap_cons]
      rw [if_neg (h pr (List.mem_cons_self _ _))]
      exact ih (fun q hq => h q (List.mem_cons_of_mem _ hq))

/-- The scanner on a position-sorted line list: starting outside an
element it emits exactly the well-formed pairs whose open position is
inside the partition (leading closes are ignored); starting inside an
element with pending open position `op` it first finishes that element. -/
theorem scan_characterization (LS : List (ℕ × List Char)) :
    List.Pairwise (fun a b => a.1 < b.1) LS → ∀ stop : ℕ,
    (∀ prs, pairsAfterCloses (tags LS) = some prs →
      scanLines stop LS none =
        prs.filterMap (fun q =>
          if stop = 0 ∨ q.1.1 < stop then some (emit q) else none)) ∧
    (∀ (op : ℕ) (c : ℕ × List Char) resttags prs, tags LS = c :: resttags →
      matchClose c.2 = true → pairsOfTags resttags = some prs →
      scanLines stop LS (some op) =
        (op, c.1 + c.2.length) ::
          prs.filterMap (fun q =>
            if stop = 0 ∨ q.1.1 < stop then some (emit q) else none)) := by
  induction LS with
  | nil =>
      intro _ stop
      constructor
      · intro prs h
        simp only [tags, List.filter_nil, pairsAfterCloses,
          Option.some.injEq] at h
        subst h
        rfl
      · intro op c resttags prs htags hc hrest
        simp [tags] at htags
  | cons hd LS' IH =>
      intro hPW stop
      obtain ⟨p, l⟩ := hd
      rw [List.pairwise_cons] at hPW
      obtain ⟨hlb, hPW'⟩ := hPW
      have IH' := IH hPW' stop
      constructor
      · intro prs h
        rw [scanLines]
        by_cases hbr : 0 < stop ∧ stop ≤ p
        · rw [if_pos hbr]
          symm
          refine filterMap_stop_nil stop prs (fun pr hm => ?_)
          have h1 := (pairsAfterCloses_mem _ _ h pr hm).1
          have h2 : pr.1 ∈ (p, l) :: LS' := List.mem_of_mem_filter h1
          have h3 : stop ≤ pr.1.1 := by
            rcases List.mem_cons.mp h2 with h4 | h4
            · rw [h4]
              exact hbr.2
            · have := hlb _ h4
              omega
          rintro (h0 | hlt) <;> omega
        · rw [if_neg hbr]
          by_cases hop : matchOpen l
          · rw [if_pos hop]
            have htag : tags ((p, l) :: LS') = (p, l) :: tags LS' := by
              simp [tags, List.filter_cons, isTag, hop]
            rw [htag, pairsAfterCloses] at h
            rw [if_neg (fun hcl => open_close_disjoint l hop hcl)] at h
            rcases htr : tags LS' with _ | ⟨c, resttags⟩
            · rw [htr] at h
              simp [pairsOfTags] at h
            · rw [htr, pairsOfTags] at h
              split_ifs at h with hb
              rcases hrest : pairsOfTags resttags with _ | prs'
              · rw [hrest] at h
                simp at h
              · rw [hrest] at h
                simp only [Option.map_some', Option.some.injEq] at h
                subst h
                rw [Bool.and_eq_true] at hb
                rw [IH'.2 p c resttags prs' htr hb.2 hrest]
                rw [filterMap_stop_cons stop ((p, l), c) prs'
                  (show stop = 0 ∨ p < stop by omega)]
                rfl
          · rw [if_neg hop]
            by_cases hcl : matchClose l
            · have htag : tags ((p, l) :: LS') = (p, l) :: tags LS' := by
                simp [tags, List.filter_cons, isTag, hcl]
              rw [htag, pairsAfterCloses, if_pos hcl] at h
              exact IH'.1 prs h
            · have htag : tags ((p, l) :: LS') = tags LS' := by
                simp [tags, List.filter_cons, isTag, hop, hcl]
              rw [htag] at h
              exact IH'.1 prs h
      · intro op c resttags prs htags hc hrest
        rw [scanLines]
        by_cases hcl : matchClose l
        · rw [if_pos hcl]
          have htag : tags ((p, l) :: LS') = (p, l) :: tags LS' := by
            simp [tags, List.filter_cons, isTag, hcl]
          rw [htag, List.cons.injEq] at htags
          obtain ⟨hc1, hc2⟩ := htags
          subst hc1
          subst hc2
          rw [IH'.1 prs (pairsOfTags_pairsAfterCloses _ _ hrest)]
        · rw [if_neg hcl]
          by_cases hop : matchOpen l
          · have htag : tags ((p, l) :: LS') = (p, l) :: tags LS' := by
              simp [tags, List.filter_cons, isTag, hop]
            rw [htag, List.cons.injEq] at htags
            obtain ⟨hc1, -⟩ := htags
            rw [← hc1] at hc
            exact absurd hc hcl
          · have htag : tags ((p, l) :: LS') = tags LS' := by
              simp [tags, List.filter_cons, isTag, hop, hcl]
            rw [htag] at htags
            exact IH'.2 op c resttags prs htags hc hrest

/-- Cutting a well-formed alternating tag sequence anywhere: the suffix is
leading-closes-then-pairs, and its pairs are exactly those whose open tag
lies in the suffix (equivalently, at or past the cut position). -/
theorem pairs_suffix (b : ℕ) : ∀ (tA tS : List (ℕ × List Char)) (prs)
    (_ : pairsOfTags (tA ++ tS) = some prs)
    (_ : ∀ x ∈ tA, x.1 < b) (_ : ∀ x ∈ tS, b ≤ x.1),
    pairsAfterCloses tS = some (prs.filter (fun pr => b ≤ pr.1.1))
  | [], tS, prs, h, hA, hS => by
      rw [List.nil_append] at h
      rw [pairsOfTags_pairsAfterCloses _ _ h]
      congr 1
      symm
      refine List.filter_eq_self.mpr (fun pr hm => ?_)
      have h1 := ((pairsOfTags_mem _ _ h pr hm).1).1
      exact decide_eq_true (hS _ h1)
  | [t], tS, prs, h, hA, hS => by
      rcases tS with _ | ⟨c, rest'⟩
      · simp [pairsOfTags] at h
      · rw [List.singleton_append, pairsOfTags] at h
        split_ifs at h with hb
        rcases hrest : pairsOfTags rest' with _ | prs₀
        · rw [hrest] at h
          simp at h
        · rw [hrest] at h
          simp only [Option.map_some', Option.some.injEq] at h
          subst h
          rw [Bool.and_eq_true] at hb
          rw [pairsAfterCloses, if_pos hb.2,
            pairsOfTags_pairsAfterCloses _ _ hrest]
          congr 1
          have hdrop : (decide (b ≤ t.1)) = false :=
            decide_eq_false (by
              have := hA t (List.mem_cons_self _ _)
              omega)
          rw [List.filter_cons]
          rw [hdrop]
          simp only [Bool.false_eq_true, if_false]
          symm
          refine List.filter_eq_self.mpr (fun pr hm => ?_)
          have h1 := ((pairsOfTags_mem _ _ hrest pr hm).1).1
          exact decide_eq_true (hS _ (List.mem_cons_of_mem _ h1))
  | t1 :: t2 :: tA', tS, prs, h, hA, hS => by
      rw [List.cons_append, List.cons_append, pairsOfTags] at h
      split_ifs at h with hb
      rcases hrest : pairsOfTags (tA' ++ tS) with _ | prs₀
      · rw [hrest] at h
        simp at h
      · rw [hrest] at h
        simp only [Option.map_some', Option.some.injEq] at h
        subst h
        rw [pairs_suffix b tA' tS prs₀ hrest
          (fun x hx => hA x (List.mem_cons_of_mem _ (List.mem_cons_of_mem _ hx)))
          hS]
        congr 1
        have hdrop : (decide (b ≤ t1.1)) = false :=
          decide_eq_false (by
            have := hA t1 (List.mem_cons_self _ _)
            omega)
        rw [List.filter_cons, hdrop]
        simp only [Bool.false_eq_true, if_false]

theorem linesOf_single : ∀ (l : List Char), l ≠ [] →
    (∀ c ∈ l.dropLast, c ≠ '\n') → linesOf l = [l]
  | [], hne, _ => absurd rfl hne
  | c :: r, _, hint => by
      rw [linesOf]
      by_cases hc : c = '\n'
      · rcases r with _ | ⟨d, r'⟩
        · rw [if_pos hc, hc]
          rfl
        · exact absurd hc (hint c (by
            show c ∈ (c :: d :: r').dropLast
            rw [show (c :: d :: r').dropLast = c :: (d :: r').dropLast from rfl]
            exact List.mem_cons_self _ _))
      · rw [if_neg hc]
        rcases r with _ | ⟨d, r'⟩
        · rfl
        · rw [linesOf_single (d :: r') (by simp) (fun x hx => hint x (by
            show x ∈ (c :: d :: r').dropLast
            rw [show (c :: d :: r').dropLast = c :: (d :: r').dropLast from rfl]
            exact List.mem_cons_of_mem _ hx))]

theorem linesOf_append_term : ∀ (l X : List Char), l ≠ [] →
    (∀ c ∈ l.dropLast, c ≠ '\n') → l.getLast? = some '\n' →
    linesOf (l ++ X) = l :: linesOf X
  | [], X, hne, _, _ => absurd rfl hne
  | [c], X, _, _, hterm => by
      rw [List.getLast?_singleton, Option.some.injEq] at hterm
      subst hterm
      rw [List.singleton_append, linesOf, if_pos rfl]
  | c :: d :: r, X, _, hint, hterm => by
      have hc : c ≠ '\n' := hint c (by
        show c ∈ (c :: d :: r).dropLast
        rw [show (c :: d :: r).dropLast = c :: (d :: r).dropLast from rfl]
        exact List.mem_cons_self _ _)
      rw [List.cons_append, linesOf, if_neg hc]
      rw [linesOf_append_term (d :: r) X (by simp) (fun x hx => hint x (by
        show x ∈ (c :: d :: r).dropLast
        rw [show (c :: d :: r).dropLast = c :: (d :: r).dropLast from rfl]
        exact List.mem_cons_of_mem _ hx))
        (by rw [List.getLast?_cons_cons] at hterm; exact hterm)]

theorem linesOf_flatten : ∀ (ls : List (List Char)),
    (∀ l ∈ ls, l ≠ [] ∧ ∀ c ∈ l.dropLast, c ≠ '\n') →
    (∀ l ∈ ls.dropLast, l.getLast? = some '\n') →
    linesOf ls.flatten = ls
  | [], _, _ => rfl
  | l :: rest, hproper, hterm => by
      rw [List.flatten_cons]
      obtain ⟨hne, hint⟩ := hproper l (List.mem_cons_self _ _)
      rcases rest with _ | ⟨r, rest'⟩
      · rw [List.flatten_nil, List.append_nil]
        rw [linesOf_single l hne hint]
      · rw [linesOf_append_term l _ hne hint
          (hterm l (by
            show l ∈ (l :: r :: rest').dropLast
            rw [show (l :: r :: rest').dropLast = l :: (r :: rest').dropLast
              from rfl]
            exact List.mem_cons_self _ _))]
        rw [linesOf_flatten (r :: rest')
          (fun x hx => hproper x (List.mem_cons_of_mem _ hx))
          (fun x hx => hterm x (by
            show x ∈ (l :: r :: rest').dropLast
            rw [show (l :: r :: rest').dropLast = l :: (r :: rest').dropLast
              from rfl]
            exact List.mem_cons_of_mem _ hx))]

theorem withPos_lb : ∀ (ls : List (List Char)) (p : ℕ) (x : ℕ × List Char),
    x ∈ withPos p ls → p ≤ x.1
  | [], _, _, hx => absurd hx (by simp [withPos])
  | l :: rest, p, x, hx => by
      rw [withPos, List.mem_cons] at hx
      rcases hx with hx | hx
      · rw [hx]
      · have := withPos_lb rest (p + l.length) x hx
        omega

theorem withPos_ub : ∀ (ls : List (List Char)) (p : ℕ),
    (∀ l ∈ ls, l ≠ []) → ∀ x ∈ withPos p ls, x.1 < p + ls.flatten.length
  | [], _, _, x, hx => absurd hx (by simp [withPos])
  | l :: rest, p, hne, x, hx => by
      have hl : 0 < l.length :=
        List.length_pos.mpr (hne l (List.mem_cons_self _ _))
      rw [withPos, List.mem_cons] at hx
      rw [List.flatten_cons, List.length_append]
      rcases hx with hx | hx
      · rw [hx]
        omega
      · have := withPos_ub rest (p + l.length)
          (fun y hy => hne y (List.mem_cons_of_mem _ hy)) x hx
        omega

theorem withPos_pairwise : ∀ (ls : List (List Char)) (p : ℕ),
    (∀ l ∈ ls, l ≠ []) →
    List.Pairwise (fun a b => a.1 < b.1) (withPos p ls)
  | [], _, _ => by simp [withPos]
  | l :: rest, p, hne => by
      rw [withPos, List.pairwise_cons]
      refine ⟨fun x hx => ?_, withPos_pairwise rest (p + l.length)
        (fun y hy => hne y (List.mem_cons_of_mem _ hy))⟩
      have h1 := withPos_lb rest (p + l.length) x hx
      have hl : 0 < l.length :=
        List.length_pos.mpr (hne l (List.mem_cons_self _ _))
      omega

theorem withPos_append : ∀ (A B : List (List Char)) (p : ℕ),
    withPos p (A ++ B) = withPos p A ++ withPos (p + A.flatten.length) B
  | [], B, p => by simp [withPos]
  | l :: A', B, p => by
      show (p, l) :: withPos (p + l.length) (A' ++ B) =
        ((p, l) :: withPos (p + l.length) A') ++
          withPos (p + (l :: A').flatten.length) B
      rw [List.cons_append, withPos_append A' B (p + l.length)]
      have harith : p + l.length + A'.flatten.length =
          p + (l :: A').flatten.length := by
        rw [List.flatten_cons, List.length_append]
        omega
      rw [harith]

/-- The byte position at which line `k` starts. -/
def posOfLine (ls : List (List Char)) (k : ℕ) : ℕ := ((ls.take k).flatten).length

theorem posOfLine_lt : ∀ (ls : List (List Char)) (k k' : ℕ),
    (∀ l ∈ ls, l ≠ []) → k < k' → k' ≤ ls.length →
    posOfLine ls k < posOfLine ls k'
  | [], k, k', _, hkk, hlen => by
      simp only [List.length_nil, Nat.le_zero] at hlen
      subst hlen
      exact absurd hkk (by omega)
  | l :: rest, 0, k', hne, hkk, hlen => by
      have hl : 0 < l.length :=
        List.length_pos.mpr (hne l (List.mem_cons_self _ _))
      rcases k' with _ | j'
      · omega
      · show posOfLine (l :: rest) 0 < posOfLine (l :: rest) (j' + 1)
        simp only [posOfLine, List.take_succ_cons, List.take_zero,
          List.flatten_nil, List.length_nil, List.flatten_cons,
          List.length_append]
        omega
  | l :: rest, Nat.succ j, k', hne, hkk, hlen => by
      rcases k' with _ | j'
      · omega
      · show posOfLine (l :: rest) (j + 1) < posOfLine (l :: rest) (j' + 1)
        simp only [posOfLine, List.take_succ_cons, List.flatten_cons,
          List.length_append]
        have := posOfLine_lt rest j j'
          (fun y hy => hne y (List.mem_cons_of_mem _ hy))
          (by omega) (by simpa using hlen)
        simp only [posOfLine] at this
        omega

theorem pairwise_getLast_le : ∀ (l : List ℕ) (L : ℕ),
    List.Pairwise (· < ·) l → l.getLast? = some L → ∀ x ∈ l, x ≤ L
  | [], _, _, hlast, _, hx => by simp at hlast
  | a :: t, L, hpw, hlast, x, hx => by
      rw [List.pairwise_cons] at hpw
      rcases t with _ | ⟨b, t'⟩
      · simp only [List.getLast?_singleton, Option.some.injEq] at hlast
        subst hlast
        simp at hx
        omega
      · rw [List.getLast?_cons_cons] at hlast
        rcases List.mem_cons.mp hx with hx | hx
        · subst hx
          have hL : L ∈ b :: t' := by
            have h1 : L ∈ (b :: t').getLast? := by
              rw [Option.mem_def]
              exact hlast
            obtain ⟨hh, h2⟩ := List.mem_getLast?_eq_getLast h1
            rw [h2]
            exact List.getLast_mem hh
          have := hpw.1 L hL
          omega
        · exact pairwise_getLast_le (b :: t') L hpw.2 hlast x hx

theorem pairsOfTags_pairwise : ∀ (ts : List (ℕ × List Char)) (prs)
    (_ : pairsOfTags ts = some prs)
    (_ : List.Pairwise (fun a b => a.1 < b.1) ts),
    List.Pairwise (fun x y => x.1.1 < y.1.1) prs
  | [], prs, h, _ => by
      simp only [pairsOfTags, Option.some.injEq] at h
      subst h
      simp
  | [t], prs, h, _ => by simp [pairsOfTags] at h
  | o :: c :: rest, prs, h, hpw => by
      rw [pairsOfTags] at h
      split_ifs at h with hb
      rcases hrest : pairsOfTags rest with _ | prs'
      · rw [hrest] at h
        simp at h
      · rw [hrest] at h
        simp only [Option.map_some', Option.some.injEq] at h
        subst h
        rw [List.pairwise_cons] at hpw
        obtain ⟨ho, hpw2⟩ := hpw
        rw [List.pairwise_cons] at hpw2
        obtain ⟨-, hpw3⟩ := hpw2
        rw [List.pairwise_cons]
        refine ⟨fun pr hm => ?_, pairsOfTags_pairwise rest prs' hrest hpw3⟩
        have h1 := ((pairsOfTags_mem _ _ hrest pr hm).1).1
        exact ho pr.1 (List.mem_cons_of_mem _ h1)

theorem filterMap_zero_eq_map (prs : List ((ℕ × List Char) × (ℕ × List Char))) :
    prs.filterMap (fun q =>
        if (0:ℕ) = 0 ∨ q.1.1 < 0 then some (emit q) else none) =
      prs.map emit := by
  induction prs with
  | nil => rfl
  | cons pr rest ih =>
      rw [show List.filterMap (fun q =>
            if (0:ℕ) = 0 ∨ q.1.1 < 0 then some (emit q) else none) (pr :: rest) =
          emit pr :: List.filterMap (fun q =>
            if (0:ℕ) = 0 ∨ q.1.1 < 0 then some (emit q) else none) rest from
        List.filterMap_cons_some (by simp)]
      rw [List.map_cons, ih]

theorem filter_le_cons_pos (b : ℕ) (pr : (ℕ × List Char) × (ℕ × List Char))
    (prs) (h : b ≤ pr.1.1) :
    (pr :: prs).filter (fun q => b ≤ q.1.1) =
      pr :: prs.filter (fun q => b ≤ q.1.1) := by
  simp [List.filter_cons, h]

theorem filter_le_cons_neg (b : ℕ) (pr : (ℕ × List Char) × (ℕ × List Char))
    (prs) (h : ¬ b ≤ pr.1.1) :
    (pr :: prs).filter (fun q => b ≤ q.1.1) =
      prs.filter (fun q => b ≤ q.1.1) := by
  simp [List.filter_cons, h]

/-- Splitting a sorted pair list at an inner boundary: the pairs opened in
[b, b') followed by the pairs opened at or past b' are the pairs opened at
or past b. -/
theorem filter_split (b b' : ℕ) (hbb : b < b') :
    ∀ (prs : List ((ℕ × List Char) × (ℕ × List Char))),
    List.Pairwise (fun x y => x.1.1 < y.1.1) prs →
    ((prs.filter (fun pr => b ≤ pr.1.1)).filterMap
        (fun q => if b' = 0 ∨ q.1.1 < b' then some (emit q) else none)) ++
      (prs.filter (fun pr => b' ≤ pr.1.1)).map emit =
    (prs.filter (fun pr => b ≤ pr.1.1)).map emit := by
  intro prs
  induction prs with
  | nil => intro _; rfl
  | cons pr rest ih =>
      intro hpw
      rw [List.pairwise_cons] at hpw
      obtain ⟨hhd, htl⟩ := hpw
      by_cases h1 : b ≤ pr.1.1
      · by_cases h2 : pr.1.1 < b'
        · rw [filter_le_cons_pos b pr rest h1,
            filter_le_cons_neg b' pr rest (by omega)]
          rw [filterMap_stop_cons b' pr _ (Or.inr h2)]
          rw [List.map_cons, List.cons_append, ih htl]
        · rw [filter_le_cons_pos b pr rest h1,
            filter_le_cons_pos b' pr rest (by omega)]
          have hnone : ∀ q ∈ rest.filter (fun pr => b ≤ pr.1.1),
              ¬ (b' = 0 ∨ q.1.1 < b') := by
            intro q hq
            have hqr := List.mem_of_mem_filter hq
            have := hhd q hqr
            rintro (h0 | hlt) <;> omega
          rw [show (pr :: rest.filter (fun pr => b ≤ pr.1.1)).filterMap
              (fun q => if b' = 0 ∨ q.1.1 < b' then some (emit q) else none) =
              (rest.filter (fun pr => b ≤ pr.1.1)).filterMap
              (fun q => if b' = 0 ∨ q.1.1 < b' then some (emit q) else none)
            from by
              simp only [List.filterMap_cons]
              rw [if_neg (by rintro (h0 | hlt) <;> omega)]]
          rw [filterMap_stop_nil b' _ hnone, List.nil_append]
          rw [List.map_cons, List.map_cons]
          congr 1
          congr 1
          refine List.filter_congr (fun q hq => ?_)
          have := hhd q hq
          have h3 : b' ≤ q.1.1 := by omega
          have h4 : b ≤ q.1.1 := by omega
          rw [decide_eq_true h3, decide_eq_true h4]
      · rw [filter_le_cons_neg b pr rest h1,
          filter_le_cons_neg b' pr rest (by omega)]
        exact ih htl

theorem mem_dropLast_cons (x l : List Char) (ls' : List (List Char))
    (hx : x ∈ ls'.dropLast) : x ∈ (l :: ls').dropLast := by
  rcases ls' with _ | ⟨a, t⟩
  · simp at hx
  · rw [show (l :: a :: t).dropLast = l :: (a :: t).dropLast from rfl]
    exact List.mem_cons_of_mem _ hx

theorem mem_dropLast_drop : ∀ (ls : List (List Char)) (k : ℕ) (x : List Char),
    x ∈ (ls.drop k).dropLast → x ∈ ls.dropLast
  | ls, 0, x, hx => by rwa [List.drop_zero] at hx
  | [], Nat.succ _, x, hx => by simp at hx
  | l :: ls', Nat.succ j, x, hx => by
      rw [List.drop_succ_cons] at hx
      exact mem_dropLast_cons x l ls' (mem_dropLast_drop ls' j x hx)

/-- FindAllTimelinesInPartition starting at a line-start byte offset, on a
well-formed file: it returns exactly the well-formed open/close pairs whose
open tag lies at or past the cut and (for a positive stopPartition) before
the partition end. -/
theorem findall_at_cut (ls : List (List Char))
    (prs : List ((ℕ × List Char) × (ℕ × List Char)))
    (hproper : ∀ l ∈ ls, l ≠ [] ∧ ∀ c ∈ l.dropLast, c ≠ '\n')
    (hterm : ∀ l ∈ ls.dropLast, l.getLast? = some '\n')
    (halt : pairsOfTags (tags (withPos 0 ls)) = some prs)
    (k stop : ℕ) :
    FindAllTimelinesInPartition ls.flatten (posOfLine ls k) stop =
      (prs.filter (fun pr => posOfLine ls k ≤ pr.1.1)).filterMap
        (fun q => if stop = 0 ∨ q.1.1 < stop then some (emit q) else none) := by
  have hne : ∀ l ∈ ls, l ≠ [] := fun l hl => (hproper l hl).1
  have hsplit : ls.take k ++ ls.drop k = ls := List.take_append_drop k ls
  have hf : ls.flatten = (ls.take k).flatten ++ (ls.drop k).flatten := by
    conv_lhs => rw [← hsplit]
    rw [List.flatten_append]
  have hdrop : ls.flatten.drop (posOfLine ls k) = (ls.drop k).flatten := by
    rw [hf]
    exact List.drop_left _ _
  have hlines : linesOf ((ls.drop k).flatten) = ls.drop k :=
    linesOf_flatten _ (fun l hl => hproper l (List.mem_of_mem_drop hl))
      (fun l hl => hterm l (mem_dropLast_drop ls k l hl))
  have hwp : withPos 0 ls =
      withPos 0 (ls.take k) ++ withPos (posOfLine ls k) (ls.drop k) := by
    conv_lhs => rw [← hsplit]
    rw [withPos_append, Nat.zero_add]
    rfl
  rw [FindAllTimelinesInPartition, hdrop, hlines]
  have hPW := withPos_pairwise (ls.drop k) (posOfLine ls k)
    (fun l hl => hne l (List.mem_of_mem_drop hl))
  refine (scan_characterization _ hPW stop).1 _ ?_
  refine pairs_suffix (posOfLine ls k) (tags (withPos 0 (ls.take k))) _ prs
    ?_ ?_ ?_
  · rw [show tags (withPos 0 (ls.take k)) ++
        tags (withPos (posOfLine ls k) (ls.drop k)) = tags (withPos 0 ls) from
      by rw [tags, tags, tags, ← List.filter_append, ← hwp]]
    exact halt
  · intro x hx
    have h1 := withPos_ub (ls.take k) 0
      (fun l hl => hne l (List.mem_of_mem_take hl)) x (List.mem_of_mem_filter hx)
    have h2 : x.1 < (ls.take k).flatten.length := by omega
    exact h2
  · intro x hx
    exact withPos_lb _ _ x (List.mem_of_mem_filter hx)

/-- Assembling contiguous line-start partitions from cut `k` to the end of
the file: the concatenated per-partition scans recover every pair opened at
or past cut `k`. -/
theorem partitions_assemble (ls : List (List Char))
    (prs : List ((ℕ × List Char) × (ℕ × List Char)))
    (hproper : ∀ l ∈ ls, l ≠ [] ∧ ∀ c ∈ l.dropLast, c ≠ '\n')
    (hterm : ∀ l ∈ ls.dropLast, l.getLast? = some '\n')
    (halt : pairsOfTags (tags (withPos 0 ls)) = some prs) :
    ∀ (bs : List ℕ) (k : ℕ),
    List.Chain' (· < ·) (k :: bs) → (k :: bs).getLast? = some ls.length →
    ((k :: bs).zip bs).flatMap (fun pq =>
        FindAllTimelinesInPartition ls.flatten (posOfLine ls pq.1)
          (posOfLine ls pq.2)) =
      (prs.filter (fun pr => posOfLine ls k ≤ pr.1.1)).map emit
  | [], k, hch, hlast => by
      have hne : ∀ l ∈ ls, l ≠ [] := fun l hl => (hproper l hl).1
      rw [List.zip_nil_right]
      simp only [List.getLast?_singleton, Option.some.injEq] at hlast
      subst hlast
      have hfil : prs.filter (fun pr => posOfLine ls ls.length ≤ pr.1.1) = [] := by
        rw [List.filter_eq_nil_iff]
        intro pr hm
        have h1 := ((pairsOfTags_mem _ _ halt pr hm).1).1
        have h2 := List.mem_of_mem_filter h1
        have h3 := withPos_ub ls 0 hne pr.1 h2
        have h4 : posOfLine ls ls.length = ls.flatten.length := by
          rw [posOfLine, List.take_length]
        simp only [decide_eq_true_eq]
        rw [h4]
        omega
      rw [hfil]
      rfl
  | b' :: bs', k, hch, hlast => by
      have hne : ∀ l ∈ ls, l ≠ [] := fun l hl => (hproper l hl).1
      rw [show (k :: b' :: bs').zip (b' :: bs') =
        (k, b') :: (b' :: bs').zip bs' from rfl]
      rw [List.flatMap_cons]
      rw [List.chain'_cons] at hch
      obtain ⟨hkb, hch'⟩ := hch
      rw [List.getLast?_cons_cons] at hlast
      rw [partitions_assemble ls prs hproper hterm halt bs' b' hch' hlast]
      rw [findall_at_cut ls prs hproper hterm halt k (posOfLine ls b')]
      refine filter_split (posOfLine ls k) (posOfLine ls b') ?_ prs ?_
      · refine posOfLine_lt ls k b' hne hkb ?_
        have hpw : List.Pairwise (· < ·) (b' :: bs') :=
          List.chain'_iff_pairwise.mp hch'
        exact pairwise_getLast_le (b' :: bs') ls.length hpw hlast b'
          (List.mem_cons_self _ _)
      · exact pairsOfTags_pairwise _ prs halt
          ((withPos_pairwise ls 0 hne).filter _)

/-- C3 amended: for a file whose lines are proper (nonempty, newline
terminated except possibly the last) and whose open/close tag lines
strictly alternate with every open matched by a close, splitting the file
at ANY strictly increasing sequence of line-start byte boundaries covering
the whole file and concatenating the per-partition scans in partition
order yields exactly the whole-file scan.  (The original claim fails for
boundaries that cut a line: see the counterexample.) -/
theorem C3_partition_amended (ls : List (List Char))
    (prs : List ((ℕ × List Char) × (ℕ × List Char))) (bs : List ℕ)
    (hproper : ∀ l ∈ ls, l ≠ [] ∧ ∀ c ∈ l.dropLast, c ≠ '\n')
    (hterm : ∀ l ∈ ls.dropLast, l.getLast? = some '\n')
    (halt : pairsOfTags (tags (withPos 0 ls)) = some prs)
    (hchain : List.Chain' (· < ·) bs)
    (hhead : bs.head? = some 0)
    (hlast : bs.getLast? = some ls.length) :
    (bs.zip bs.tail).flatMap (fun pq =>
        FindAllTimelinesInPartition ls.flatten (posOfLine ls pq.1)
          (posOfLine ls pq.2)) =
      FindAllTimelinesInPartition ls.flatten 0 0 := by
  rcases bs with _ | ⟨b0, bs'⟩
  · simp at hhead
  · simp only [List.head?_cons, Option.some.injEq] at hhead
    subst hhead
    rw [show (0 :: bs').tail = bs' from rfl]
    rw [partitions_assemble ls prs hproper hterm halt bs' 0 hchain hlast]
    rw [show FindAllTimelinesInPartition ls.flatten 0 0 =
      FindAllTimelinesInPartition ls.flatten (posOfLine ls 0) 0 from rfl]
    rw [findall_at_cut ls prs hproper hterm halt 0 0]
    rw [filterMap_zero_eq_map]

/-- A well-formed two-timeline file, line by line. -/
def c3ls : List (List Char) :=
  ["<TL\n".toList, "</TL>\n".toList, "<TL\n".toList, "</TL>\n".toList]

/-- Its two open/close pairs with their byte positions. -/
def c3prs : List ((ℕ × List Char) × (ℕ × List Char)) :=
  [((0, "<TL\n".toList), (4, "</TL>\n".toList)),
   ((10, "<TL\n".toList), (14, "</TL>\n".toList))]

/-- Witness for the amended C3: the 20-byte two-timeline file cut at line
2 (byte 10), one timeline per partition. -/
theorem C3_partition_amended_witness :
    (∀ l ∈ c3ls, l ≠ [] ∧ ∀ c ∈ l.dropLast, c ≠ '\n') ∧
    (∀ l ∈ c3ls.dropLast, l.getLast? = some '\n') ∧
    (pairsOfTags (tags (withPos 0 c3ls)) = some c3prs) ∧
    (List.Chain' (· < ·) ([0, 2, 4] : List ℕ)) ∧
    (([0, 2, 4] : List ℕ).head? = some 0) ∧
    (([0, 2, 4] : List ℕ).getLast? = some c3ls.length) ∧
    ((([0, 2, 4] : List ℕ).zip ([0, 2, 4] : List ℕ).tail).flatMap (fun pq =>
        FindAllTimelinesInPartition c3ls.flatten (posOfLine c3ls pq.1)
          (posOfLine c3ls pq.2)) =
      FindAllTimelinesInPartition c3ls.flatten 0 0) :=
  ⟨by decide, by decide, by decide,
   by simp +decide [List.chain'_cons], by decide, by decide,
   C3_partition_amended c3ls c3prs [0, 2, 4] (by decide) (by decide)
     (by decide) (by simp +decide [List.chain'_cons]) (by decide) (by decide)⟩

end DLib
